import Mathlib

/-!
Verification development for the `sessiondriver` reverse proxy
(`src/main.rs`, with the companion pool client in `src/lib.rs`).

The Rust sources are shallowly embedded as executable Lean definitions:

* request paths and other byte strings are `List Char` (the code only ever
  manipulates ASCII here);
* the session registry (`HashMap<Uuid, Browser>` behind `RwLock`) is an
  association list `List (Nat × Browser)`; a UUID is its 128-bit value as a
  `Nat` (the `uuid` crate's hyphenated/simple textual formats are modelled;
  the `urn:`/braced variants, which no claim touches, are omitted);
* tokio task handles are `Nat` identifiers; the set of live (spawned and not
  aborted, not yet finished) expiry tasks is carried in the state as
  `armed : List (Nat × Nat)` (task id × session id), which makes the effect
  of `JoinHandle::abort` and `tokio::spawn` explicit;
* library effects whose behaviour the program does not control (binding a
  probe listener, spawning the child, the backend's HTTP answers,
  `serde_json` parsing of the backend body) are supplied by a `Backend`
  oracle; everything the program itself computes is defined here;
* the `unreachable!()` arm of `proxy_request` is the `Outcome.panicked`
  result, `exit(1)` in the readiness prober is `Outcome.exited 1`, and a
  fallible Rust slice operation is an `Option`;
* `u16` arithmetic on the port cursor wraps modulo 2^16 as in a release
  build.

Loops (`loop` in the port allocator and the readiness prober, the repeated
stripping of `trim_start_matches`) are given explicit fuel; lemmas show the
fuel suffices wherever the source loop terminates.
-/

/-- Byte/character strings of the Rust code, as lists of characters. -/
abbrev Chars := List Char

/-- `str::trim_end_matches('/')`: drop every trailing `'/'`. -/
def trimEndSlashes (s : Chars) : Chars :=
  (s.reverse.dropWhile (fun c => c = '/')).reverse

/-- `str::find('/')` followed by `&uuid[..i]`: the segment before the first
`'/'`, or the whole string when there is none. -/
def takeUntilSlash : Chars → Chars
  | [] => []
  | c :: cs => if c = '/' then [] else c :: takeUntilSlash cs

/-- Strip one occurrence of the pattern from the front, if it is there. -/
def stripOnce : Chars → Chars → Option Chars
  | [], s => some s
  | _ :: _, [] => none
  | p :: ps, c :: cs => if p = c then stripOnce ps cs else none

/-- Fuelled worker for `str::trim_start_matches`. -/
def stripRepeatGo (pat : Chars) : Nat → Chars → Chars
  | 0, s => s
  | fuel + 1, s =>
    match stripOnce pat s with
    | some rest => stripRepeatGo pat fuel rest
    | none => s

/-- `str::trim_start_matches(pat)`: strip the pattern from the front as often
as it matches.  `s.length + 1` steps are enough for any non-empty pattern. -/
def stripRepeat (pat s : Chars) : Chars :=
  stripRepeatGo pat (s.length + 1) s

/-- `str::split(' ')` (also the shape of `splitDash` below): split at every
occurrence of the separator, keeping empty fragments, as Rust does. -/
def splitCh (sep : Char) : Chars → List Chars
  | [] => [[]]
  | c :: cs =>
    if c = sep then [] :: splitCh sep cs
    else
      match splitCh sep cs with
      | [] => [[c]]
      | g :: gs => (c :: g) :: gs

/-! ## Hexadecimal digits and UUIDs -/

/-- The decimal digits. -/
def decDigits : Chars :=
  ['0', '1', '2', '3', '4', '5', '6', '7', '8', '9']

/-- The lowercase hex alphabet used by the `uuid` crate's `Display`. -/
def hexAlphabet : Chars :=
  decDigits ++ ['a', 'b', 'c', 'd', 'e', 'f']

/-- Lowercase hex character of a nibble. -/
def nibbleChar (d : Nat) : Char :=
  hexAlphabet.getD d '0'

/-- Value of one hex character (the crate accepts both cases). -/
def hexVal (c : Char) : Option Nat :=
  if '0' ≤ c ∧ c ≤ '9' then some (c.toNat - 48)
  else if 'a' ≤ c ∧ c ≤ 'f' then some (c.toNat - 87)
  else if 'A' ≤ c ∧ c ≤ 'F' then some (c.toNat - 55)
  else none

/-- Accumulating big-endian hex parse. -/
def parseHexAcc : Chars → Nat → Option Nat
  | [], a => some a
  | c :: cs, a =>
    match hexVal c with
    | some d => parseHexAcc cs (16 * a + d)
    | none => none

/-- Parse a string of hex characters, most significant first. -/
def parseHex (s : Chars) : Option Nat :=
  parseHexAcc s 0

/-- Big-endian nibbles (`k` of them) of a natural number. -/
def toHexNibbles : Nat → Nat → List Nat
  | _, 0 => []
  | n, k + 1 => toHexNibbles (n / 16) k ++ [n % 16]

/-- Value of a big-endian nibble list. -/
def valNibbles (ds : List Nat) : Nat :=
  ds.foldl (fun a d => 16 * a + d) 0

/-- Split at `'-'`. -/
def splitDash : Chars → List Chars :=
  splitCh '-'

/-- `Uuid::from_str`: the simple (32 hex chars) and the hyphenated
(8-4-4-4-12) formats of the `uuid` crate; its `urn:`/braced variants are
omitted (no claim involves them). -/
def parseUuid (s : Chars) : Option Nat :=
  if s.length = 32 then parseHex s
  else
    match splitDash s with
    | [g1, g2, g3, g4, g5] =>
      if g1.length = 8 ∧ g2.length = 4 ∧ g3.length = 4 ∧ g4.length = 4 ∧ g5.length = 12 then
        parseHex (g1 ++ g2 ++ g3 ++ g4 ++ g5)
      else none
    | _ => none

/-- `Uuid`'s `Display`: lowercase hyphenated 8-4-4-4-12 form. -/
def uuidToString (u : Nat) : Chars :=
  let d := (toHexNibbles u 32).map nibbleChar
  d.take 8 ++ '-' :: (d.drop 8).take 4 ++ '-' :: (d.drop 12).take 4 ++
    '-' :: (d.drop 16).take 4 ++ '-' :: d.drop 20

/-- The 32 hex characters of a UUID. -/
def uuidDigits (u : Nat) : Chars :=
  (toHexNibbles u 32).map nibbleChar

/-! ## Extra-parameter quote stripping (`main`, lines 99–116)

`stripParameters` is the code: note that after removing the opening quote it
keeps the first one or two bytes of the remainder (`&tmp[..2]`, `&tmp[..1]`)
instead of removing the closing quote.  A slice out of bounds (a Rust panic)
is `none`. -/

def escDouble : Chars := ['\\', '"']
def escSingle : Chars := ['\\', '\'']

def stripParameters (p : Chars) : Option Chars :=
  if (escDouble.isPrefixOf p ∧ escDouble.isSuffixOf p) ∨
      (escSingle.isPrefixOf p ∧ escSingle.isSuffixOf p) then
    let tmp := p.drop 2
    if 2 ≤ tmp.length then some (tmp.take 2) else none
  else if (['"'].isPrefixOf p ∧ ['"'].isSuffixOf p) ∨
      (['\''].isPrefixOf p ∧ ['\''].isSuffixOf p) then
    let tmp := p.drop 1
    if 1 ≤ tmp.length then some (tmp.take 1) else none
  else some p

/-- Modelled from the spec (§4.2, §9 "Quoting of extra parameters"), which is
what the stripping in `main` was meant to do: if the first and last byte are
the same quote character — one of `'` or `"`, optionally as a
backslash-escaped pair — strip exactly that one outer layer, leaving the
inner substring between the quotes. -/
def specStripQuotes (p : Chars) : Chars :=
  if (escDouble.isPrefixOf p ∧ escDouble.isSuffixOf p ∧ 4 ≤ p.length) ∨
      (escSingle.isPrefixOf p ∧ escSingle.isSuffixOf p ∧ 4 ≤ p.length) then
    (p.drop 2).take (p.length - 4)
  else if (['"'].isPrefixOf p ∧ ['"'].isSuffixOf p ∧ 2 ≤ p.length) ∨
      (['\''].isPrefixOf p ∧ ['\''].isSuffixOf p ∧ 2 ≤ p.length) then
    (p.drop 1).take (p.length - 2)
  else p

/-! ## Readiness prober (`proxy`, lines 194–221) -/

/-- Running data of the probe loop: failed attempts so far (`i` in the code),
the attempt numbers at which the advisory warning was printed, and the total
time slept in milliseconds. -/
structure ProbeSt where
  failed : Nat
  warns : List Nat
  sleptMs : Nat
deriving DecidableEq, Repr

inductive ProbeResult where
  /-- The backend answered 2xx; the loop breaks. -/
  | ready (s : ProbeSt)
  /-- `exit(1)` at attempt 480: the whole process terminates. -/
  | exited (code : Nat) (s : ProbeSt)
deriving DecidableEq, Repr

/-- `response.status().is_success()` on the outcome of one `GET /status`
attempt: `none` is a transport error, `some s` an HTTP status. -/
def probeOk (probe : Nat → Option Nat) (n : Nat) : Bool :=
  match probe n with
  | some s => decide (200 ≤ s ∧ s < 300)
  | none => false

/-- The probe loop, one constructor case per iteration.  Mirrors the source:
try, on success break; otherwise `i += 1`, sleep 125 ms, warn when `i` is
40, 80, 120 or 480, and `exit(1)` when `i` is 480. -/
def probeGo (ok : Nat → Bool) : Nat → ProbeSt → Option ProbeResult
  | 0, _ => none
  | fuel + 1, s =>
    if ok s.failed then some (ProbeResult.ready s)
    else
      let i := s.failed + 1
      let slept := s.sleptMs + 125
      let warns := if i = 40 ∨ i = 80 ∨ i = 120 ∨ i = 480 then s.warns ++ [i] else s.warns
      if i = 480 then some (ProbeResult.exited 1 ⟨i, warns, slept⟩)
      else probeGo ok fuel ⟨i, warns, slept⟩

/-- The whole readiness probe of a freshly spawned backend.  481 fuel covers
the built-in 480-attempt cap. -/
def probeLoop (probe : Nat → Option Nat) : Option ProbeResult :=
  probeGo (probeOk probe) 481 ⟨0, [], 0⟩

/-- The loop state after one more failed attempt. -/
def probeStep (s : ProbeSt) : ProbeSt :=
  ⟨s.failed + 1,
   if s.failed + 1 = 40 ∨ s.failed + 1 = 80 ∨ s.failed + 1 = 120 ∨ s.failed + 1 = 480
     then s.warns ++ [s.failed + 1] else s.warns,
   s.sleptMs + 125⟩

/-- The warnings the loop has issued once `i` failures have happened. -/
def warnUpTo (i : Nat) : List Nat :=
  ([40, 80, 120, 480] : List Nat).filter (fun w => decide (w ≤ i))

/-! ## Port allocator (`proxy`, lines 161–171) -/

/-- One `allocate()` under the `next_port` mutex: bind-probe the cursor; on
failure increment and retry, on success increment past the returned port.
The `u16` cursor wraps modulo 2^16 (release-build semantics); fuel 2^16
covers a full cycle, `none` models the diverging loop when no port at all is
bindable. -/
def allocGo (bindOk : Nat → Bool) : Nat → Nat → Option (Nat × Nat)
  | 0, _ => none
  | fuel + 1, cursor =>
    if bindOk cursor then some (cursor, (cursor + 1) % 65536)
    else allocGo bindOk fuel ((cursor + 1) % 65536)

/-! ## Data model (`main.rs`, lines 70–92) -/

inductive Method where
  | GET | POST | DELETE | HEAD | PATCH | PUT | OPTIONS | TRACE
deriving DecidableEq, Repr

/-- A backend socket address (`SocketAddr`), displayed `host:port`. -/
structure Addr where
  host : Chars
  port : Nat
deriving DecidableEq, Repr

/-- Registry value.  `process` is the child handle (kill-on-drop), `cleanup`
is the id of the currently armed expiry task (the `Mutex<JoinHandle<()>>`
slot — structurally there is exactly one). -/
structure Browser where
  address : Addr
  process : Nat
  cleanup : Nat
deriving DecidableEq, Repr

/-- Inbound request as the handler sees it. -/
structure Req where
  method : Method
  path : Chars
  query : Option Chars
  headers : List (Chars × Chars)
  body : Chars
deriving DecidableEq, Repr

/-- A backend HTTP response. -/
structure BackendResp where
  status : Nat
  headers : List (Chars × Chars)
  body : Chars
deriving DecidableEq, Repr

/-- The `{ value: { sessionId, capabilities } }` envelope of a NewSession
response, after `serde_json` parsing: `sessionId` is `none` for JSON null,
`capabilities` is kept as its opaque JSON text. -/
structure SessVal where
  sessionId : Option Nat
  capabilities : Chars
deriving DecidableEq, Repr

/-- Oracle for the outside world: bindability of ports, child spawning, the
backend's `/status` probe answers, the backend's answer to a forwarded
request (`none` is a transport error, surfaced as 502), and `serde_json`
parsing of a NewSession response body. -/
structure Backend where
  bindOk : Nat → Bool
  spawnOk : Bool
  probe : Nat → Option Nat
  send : Method → Addr → Chars → Chars → Option BackendResp
  parse : Chars → Option SessVal

/-- `WebDriverMeta` (immutable after start; the port cursor lives in `St`). -/
structure WebDriverMeta where
  protocol : Chars
  host : Chars
  tti : Nat

/-- Mutable program state: the session registry, the live (armed, unaborted,
unfinished) expiry tasks as (task id × session id), the `next_port` cursor
and fresh-id sources for tasks and child processes. -/
structure St where
  registry : List (Nat × Browser)
  armed : List (Nat × Nat)
  nextPort : Nat
  nextTask : Nat
  nextProc : Nat
deriving DecidableEq, Repr

/-- Observable side effects of handling one request, in program order. -/
inductive Ev where
  | removed (u : Nat)
  | aborted (t : Nat)
  | spawnedTask (t : Nat) (u : Nat)
  | spawnedProcess (p : Nat) (port : Nat)
  | forwarded (m : Method) (a : Addr) (path : Chars) (statusRewrite : Bool)
  | warned (i : Nat)
deriving DecidableEq, Repr

/-- Result of the handler: an HTTP response together with the new state and
the events, or `exit(1)` from the prober, or the `unreachable!()` panic of
`proxy_request`, or divergence of the port-allocation loop.  Error bodies
produced from a library error's `Display` are modelled as empty. -/
inductive Outcome where
  | ok (status : Nat) (headers : List (Chars × Chars)) (body : Chars) (st : St) (events : List Ev)
  | exited (code : Nat)
  | panicked (st : St) (events : List Ev)
  | diverged
deriving DecidableEq, Repr

/-! ## Registry primitives (`HashMap` and task bookkeeping) -/

/-- `HashMap::get`. -/
def lookupA : List (Nat × Browser) → Nat → Option Browser
  | [], _ => none
  | p :: l, k => if p.1 = k then some p.2 else lookupA l k

/-- The removal part of `HashMap::remove`. -/
def removeA : List (Nat × Browser) → Nat → List (Nat × Browser)
  | [], _ => []
  | p :: l, k => if p.1 = k then removeA l k else p :: removeA l k

/-- `HashMap::insert` (replaces an existing entry with the same key). -/
def insertA (l : List (Nat × Browser)) (k : Nat) (v : Browser) : List (Nat × Browser) :=
  (k, v) :: removeA l k

/-- `JoinHandle::abort`: the task is no longer live. -/
def removeTask : List (Nat × Nat) → Nat → List (Nat × Nat)
  | [], _ => []
  | p :: l, t => if p.1 = t then removeTask l t else p :: removeTask l t

/-- The live expiry tasks keyed to a session id. -/
def armedFor : List (Nat × Nat) → Nat → List (Nat × Nat)
  | [], _ => []
  | p :: l, u => if p.2 = u then p :: armedFor l u else armedFor l u

/-- In-place update of the `cleanup` slot of the entry with the given key
(the write through the Browser's `Mutex<JoinHandle<()>>`). -/
def updateCleanup : List (Nat × Browser) → Nat → Nat → List (Nat × Browser)
  | [], _, _ => []
  | p :: l, k, t =>
    if p.1 = k then (p.1, { p.2 with cleanup := t }) :: updateCleanup l k t
    else p :: updateCleanup l k t

/-! ## Registry operations, as the dispatcher performs them -/

/-- Rearm (lines 325–334, under the Browser's `cleanup` mutex): abort the
armed task, spawn a fresh one, swap it into the slot. -/
def rearmOp (st : St) (u : Nat) (b : Browser) : St :=
  { st with
    registry := updateCleanup st.registry u st.nextTask
    armed := removeTask st.armed b.cleanup ++ [(st.nextTask, u)]
    nextTask := st.nextTask + 1 }

/-- Explicit delete (lines 288–290): remove the entry first, then abort its
expiry task. -/
def deleteOp (st : St) (u : Nat) (b : Browser) : St :=
  { st with
    registry := removeA st.registry u
    armed := removeTask st.armed b.cleanup }

/-- NewSession insert (lines 264–275): insert the Browser keyed by the
session id with a freshly spawned expiry task.  An entry already stored
under the same key is replaced; dropping its `JoinHandle` does not abort the
old task. -/
def insertOp (st : St) (sid : Nat) (addr : Addr) (proc : Nat) : St :=
  { st with
    registry := insertA st.registry sid ⟨addr, proc, st.nextTask⟩
    armed := st.armed ++ [(st.nextTask, sid)]
    nextTask := st.nextTask + 1 }

/-- The body of an expiry task firing (lines 270–273 / 330–332): after the
TTI sleep it removes its session id from the registry; the task itself ends,
so it stops being live. -/
def expireOp (st : St) (t : Nat) (u : Nat) : St :=
  { st with
    registry := removeA st.registry u
    armed := removeTask st.armed t }

/-! ## HTTP forwarder (`proxy_request`, lines 360–402) -/

/-- The method match at the top of `proxy_request`; `none` is the
`unreachable!()` arm. -/
def toReqwestMethod : Method → Option Method
  | Method.POST => some Method.POST
  | Method.GET => some Method.GET
  | Method.DELETE => some Method.DELETE
  | _ => none

def statusPathChars : Chars := "/status".toList
def sessionPathChars : Chars := "/session".toList
def sessionPreChars : Chars := "/session/".toList
def driverPreChars : Chars := "/session/driver/".toList

/-- The outbound path: `/status` under the `status_request` rewrite,
otherwise the original (untrimmed) inbound path; the query is re-appended. -/
def reqOutPath (req : Req) (statusRequest : Bool) : Chars :=
  (if statusRequest then statusPathChars else req.path) ++
    (match req.query with
     | none => []
     | some q => '?' :: q)

inductive FwdRes where
  | panicked
  | transportErr
  | got (r : BackendResp)

/-- `proxy_request`: convert the method (panicking on an unsupported one),
rewrite the path under `status_request`, send to the backend.  Header
copying (minus `Host`) and body buffering do not affect any claim and are
folded into the oracle's `send`. -/
def proxyFwd (o : Backend) (a : Addr) (req : Req) (statusRequest : Bool) : FwdRes :=
  match toReqwestMethod req.method with
  | none => FwdRes.panicked
  | some m =>
    match o.send m a (reqOutPath req statusRequest) req.body with
    | none => FwdRes.transportErr
    | some r => FwdRes.got r

/-! ## Dispatcher (`proxy`, lines 143–358) -/

def ctKeyChars : Chars := "Content-Type".toList
def ctJsonChars : Chars := "application/json".toList

/-- The literal global-status body of line 156 (note the spaces). -/
def statusBodyChars : Chars :=
  " \x7b \"value\": \x7b \"ready\": true, \"message\": \"\" \x7d \x7d".toList.drop 1

/-- `serde_json::to_string` of the rewritten NewSession envelope. -/
def serializeSession (sid : Nat) (caps : Chars) : Chars :=
  "\x7b\"value\":\x7b\"sessionId\":\"".toList ++ uuidToString sid ++
    "\",\"capabilities\":".toList ++ caps ++ "\x7d\x7d".toList

/-- The `POST /session` branch (lines 160–279): allocate a port, spawn the
child, probe readiness, forward the request, parse and rewrite the session
id, register the Browser with an armed expiry task. -/
def handleNewSession (meta : WebDriverMeta) (o : Backend) (st : St) (req : Req) : Outcome :=
  match allocGo o.bindOk 65536 st.nextPort with
  | none => Outcome.diverged
  | some (port, cursor2) =>
    let st1 := { st with nextPort := cursor2 }
    if o.spawnOk then
      let proc := st1.nextProc
      let st2 := { st1 with nextProc := proc + 1 }
      let addr : Addr := ⟨meta.host, port⟩
      match probeLoop o.probe with
      | none => Outcome.diverged
      | some (ProbeResult.exited c _) => Outcome.exited c
      | some (ProbeResult.ready ps) =>
        match proxyFwd o addr req false with
        | FwdRes.panicked => Outcome.panicked st2 [Ev.spawnedProcess proc port]
        | FwdRes.transportErr =>
          Outcome.ok 502 [] [] st2
            [Ev.spawnedProcess proc port,
             Ev.forwarded req.method addr (reqOutPath req false) false]
        | FwdRes.got r =>
          match o.parse r.body with
          | none =>
            Outcome.ok 500 [] [] st2
              [Ev.spawnedProcess proc port,
               Ev.forwarded req.method addr (reqOutPath req false) false]
          | some sv =>
            let sid := sv.sessionId.getD 0
            let t := st2.nextTask
            Outcome.ok r.status r.headers (serializeSession sid sv.capabilities)
              (insertOp st2 sid addr proc)
              ([Ev.spawnedProcess proc port] ++ ps.warns.map Ev.warned ++
                [Ev.forwarded req.method addr (reqOutPath req false) false,
                 Ev.spawnedTask t sid])
    else Outcome.ok 500 [] [] st1 []

/-- The `DELETE /session/{uuid}` branch when the entry exists (lines
288–312): remove, abort, forward the DELETE, return the backend response. -/
def handleDeleteHit (o : Backend) (st : St) (req : Req) (u : Nat) (b : Browser) : Outcome :=
  let st1 := deleteOp st u b
  let evs := [Ev.removed u, Ev.aborted b.cleanup,
    Ev.forwarded req.method b.address (reqOutPath req false) false]
  match proxyFwd o b.address req false with
  | FwdRes.panicked => Outcome.panicked st1 [Ev.removed u, Ev.aborted b.cleanup]
  | FwdRes.transportErr => Outcome.ok 502 [] [] st1 evs
  | FwdRes.got r => Outcome.ok r.status r.headers r.body st1 evs

/-- The shared tail of the dispatcher (lines 315–357): look the session up
(404 if absent), rearm its expiry task, forward — with the `status_request`
rewrite iff the request is `GET /session/driver/{uuid}/status`. -/
def handleLookup (o : Backend) (st : St) (req : Req) (path : Chars) (u : Nat) : Outcome :=
  match lookupA st.registry u with
  | none => Outcome.ok 404 [] [] st []
  | some b =>
    let t := st.nextTask
    let st1 := rearmOp st u b
    let statusRequest : Bool :=
      decide (req.method = Method.GET ∧ path = driverPreChars ++ uuidToString u ++ statusPathChars)
    let evs0 := [Ev.aborted b.cleanup, Ev.spawnedTask t u]
    match proxyFwd o b.address req statusRequest with
    | FwdRes.panicked => Outcome.panicked st1 evs0
    | FwdRes.transportErr =>
      Outcome.ok 502 [] [] st1
        (evs0 ++ [Ev.forwarded req.method b.address (reqOutPath req statusRequest) statusRequest])
    | FwdRes.got r =>
      Outcome.ok r.status r.headers r.body st1
        (evs0 ++ [Ev.forwarded req.method b.address (reqOutPath req statusRequest) statusRequest])

/-- The session-id part of the dispatcher: parse the id (400 on failure),
try the exact-match DELETE branch, else fall through to lookup/forward. -/
def handleWithUuid (o : Backend) (st : St) (req : Req) (path : Chars) (u : Nat) : Outcome :=
  if req.method = Method.DELETE ∧ path = sessionPreChars ++ uuidToString u then
    match lookupA st.registry u with
    | some b => handleDeleteHit o st req u b
    | none => handleLookup o st req path u
  else handleLookup o st req path u

/-- Line 152: the request matches the global-status route (the path is the
trailing-slash-normalized one). -/
abbrev isStatusRoute (req : Req) : Prop :=
  (req.method = Method.GET ∨ req.method = Method.HEAD) ∧
    trimEndSlashes req.path = statusPathChars

/-- Line 160: the request matches the NewSession route. -/
abbrev isNewSessionRoute (req : Req) : Prop :=
  req.method = Method.POST ∧ trimEndSlashes req.path = sessionPathChars

/-- Lines 281–285: the session-id extraction — strip every leading
`/session/`, cut at the next `/`, parse as a UUID. -/
def extractUuid (req : Req) : Option Nat :=
  parseUuid (takeUntilSlash (stripRepeat sessionPreChars (trimEndSlashes req.path)))

/-- The whole request handler `proxy`. -/
def proxy (meta : WebDriverMeta) (o : Backend) (st : St) (req : Req) : Outcome :=
  if isStatusRoute req then
    Outcome.ok 200 [(ctKeyChars, ctJsonChars)] statusBodyChars st []
  else if isNewSessionRoute req then
    handleNewSession meta o st req
  else
    match extractUuid req with
    | none => Outcome.ok 400 [] [] st []
    | some u => handleWithUuid o st req (trimEndSlashes req.path) u

/-! ## Projections and well-formedness -/

def statusOf : Outcome → Option Nat
  | Outcome.ok s _ _ _ _ => some s
  | _ => none

def bodyOf : Outcome → Option Chars
  | Outcome.ok _ _ b _ _ => some b
  | _ => none

def stOf : Outcome → Option St
  | Outcome.ok _ _ _ st _ => some st
  | _ => none

def eventsOf : Outcome → Option (List Ev)
  | Outcome.ok _ _ _ _ e => some e
  | _ => none

def isPanicked : Outcome → Bool
  | Outcome.panicked _ _ => true
  | _ => false

/-- Well-formedness of a state: registry keys are distinct (`HashMap`), live
task ids are distinct and below the fresh counter, every live expiry task
belongs to a registered session, and — the §3 invariant — every entry has
exactly its own armed expiry task. -/
structure RegWf (st : St) : Prop where
  nodupKeys : (st.registry.map Prod.fst).Nodup
  nodupTasks : (st.armed.map Prod.fst).Nodup
  freshTasks : ∀ p ∈ st.armed, p.1 < st.nextTask
  armedRegistered : ∀ p ∈ st.armed, (lookupA st.registry p.2).isSome
  timers : ∀ p ∈ st.registry, armedFor st.armed p.1 = [(p.2.cleanup, p.1)]

/-- The "exactly one armed timer per entry" part alone. -/
abbrev timersOk (st : St) : Prop :=
  ∀ p ∈ st.registry, armedFor st.armed p.1 = [(p.2.cleanup, p.1)]

/-! ## Concrete instances used by closed theorems and witnesses -/

/-- A configuration as the defaults of `Args` produce it. -/
def meta0 : WebDriverMeta :=
  { protocol := "http://".toList, host := "0.0.0.0".toList, tti := 43200000 }

def addr0 : Addr := ⟨meta0.host, 4445⟩

/-- A Browser registered under the all-zero UUID, with task id 0 armed. -/
def browser0 : Browser := ⟨addr0, 0, 0⟩

/-- State with one registered session (the all-zero UUID). -/
def st0 : St := ⟨[(0, browser0)], [(0, 0)], 4446, 1, 1⟩

/-- The empty starting state (`next_port` starts at 4445). -/
def stEmpty : St := ⟨[], [], 4445, 0, 0⟩

/-- Every port is bindable. -/
def bindAll : Nat → Bool := fun _ => true

/-- Only port 4445 is bindable (all others occupied). -/
def bindOnly4445 : Nat → Bool := fun n => decide (n = 4445)

/-- The fixed answer of the well-behaved test backend. -/
def backendOkResp : BackendResp := ⟨200, [], "ok".toList⟩

/-- A parsed NewSession envelope whose `sessionId` is JSON null. -/
def sessVal0 : SessVal := ⟨none, "cap".toList⟩

/-- A well-behaved environment: every port binds, spawns succeed, the
backend is immediately ready, answers 200 with a fixed body, and its
NewSession body parses with a null `sessionId`. -/
def o0 : Backend :=
  { bindOk := bindAll
    spawnOk := true
    probe := fun _ => some 200
    send := fun _ _ _ _ => some backendOkResp
    parse := fun _ => some sessVal0 }

/-- An environment whose backend never becomes ready. -/
def probeNever : Nat → Option Nat := fun _ => some 503

/-- The final probe-loop state after 480 failures. -/
def probeFinal480 : ProbeSt := ⟨480, [40, 80, 120, 480], 60000⟩

def uuidZeroChars : Chars := "00000000-0000-0000-0000-000000000000".toList

/-- `GET /session/driver/{0-uuid}/status`, the pool client's health check. -/
def reqDriverStatus : Req :=
  { method := Method.GET
    path := "/session/driver/00000000-0000-0000-0000-000000000000/status".toList
    query := none
    headers := []
    body := [] }

/-- `PATCH /session/{0-uuid}/url`: session-scoped path, unsupported method. -/
def reqPatch : Req :=
  { method := Method.PATCH
    path := "/session/00000000-0000-0000-0000-000000000000/url".toList
    query := none
    headers := []
    body := [] }

/-- `GET /status`. -/
def reqStatus : Req :=
  { method := Method.GET, path := "/status".toList, query := none, headers := [], body := [] }

/-- `POST /session`. -/
def reqNewSession : Req :=
  { method := Method.POST, path := "/session".toList, query := none, headers := [], body := "caps".toList }

/-- `DELETE /session/{0-uuid}`. -/
def reqDelete0 : Req :=
  { method := Method.DELETE
    path := "/session/00000000-0000-0000-0000-000000000000".toList
    query := none
    headers := []
    body := [] }

/-- The state reached from a state by one request, when the outcome is a
response. -/
def stepState (meta : WebDriverMeta) (o : Backend) (req : Req) (st : St) : Option St :=
  stOf (proxy meta o st req)

/-- Two `POST /session` requests in a row against a backend whose NewSession
responses carry `sessionId: null` — both sessions get keyed by the all-zero
sentinel. -/
def twoPostsState : Option St :=
  (stepState meta0 o0 reqNewSession stEmpty).bind (stepState meta0 o0 reqNewSession)

/-- `POST /status`: matches no route, does not parse as a session id. -/
def reqPostStatus : Req :=
  { method := Method.POST, path := "/status".toList, query := none, headers := [], body := [] }

/-- The configured extra-parameters string `"ab cd"` (quotes included). -/
def paramsQuoted : Chars := "\"ab cd\"".toList

/-- Its inner substring between the quotes. -/
def paramsInner : Chars := "ab cd".toList

def wordAb : Chars := "ab".toList

def wordCd : Chars := "cd".toList

/-- The single character the buggy slice arithmetic keeps. -/
def strA : Chars := "a".toList

/-- The body the claim C3 calls canonical (no spaces). -/
def claimedStatusBody : Chars :=
  "\x7b\"value\":\x7b\"ready\":true,\"message\":\"\"\x7d\x7d".toList

/-! # Supporting lemmas -/

theorem splitCh_of_not_mem {sep : Char} : ∀ (s : Chars), sep ∉ s → splitCh sep s = [s]
  | [], _ => rfl
  | c :: cs, h => by
    have hc : ¬ c = sep := fun hh => h (hh ▸ List.mem_cons_self c cs)
    have ih := splitCh_of_not_mem cs (fun hm => h (List.mem_cons_of_mem c hm))
    simp [splitCh, hc, ih]

theorem splitCh_append {sep : Char} (r : Chars) :
    ∀ (a : Chars), sep ∉ a → splitCh sep (a ++ sep :: r) = a :: splitCh sep r
  | [], _ => by simp [splitCh]
  | c :: cs, h => by
    have hc : ¬ c = sep := fun hh => h (hh ▸ List.mem_cons_self c cs)
    have ih := splitCh_append r cs (fun hm => h (List.mem_cons_of_mem c hm))
    simp [splitCh, hc, ih]

theorem length_toHexNibbles : ∀ (k n : Nat), (toHexNibbles n k).length = k
  | 0, _ => rfl
  | k + 1, n => by
    simp [toHexNibbles, length_toHexNibbles k (n / 16)]

theorem mem_toHexNibbles_lt : ∀ (k n : Nat), ∀ d ∈ toHexNibbles n k, d < 16
  | 0, _, _, hd => absurd hd (List.not_mem_nil _)
  | k + 1, n, d, hd => by
    rcases List.mem_append.mp hd with h | h
    · exact mem_toHexNibbles_lt k (n / 16) d h
    · rcases List.mem_singleton.mp h with rfl
      exact Nat.mod_lt _ (by norm_num)

theorem valNibbles_append_one (l : List Nat) (d : Nat) :
    valNibbles (l ++ [d]) = 16 * valNibbles l + d := by
  simp [valNibbles, List.foldl_append]

theorem valNibbles_toHexNibbles : ∀ (k n : Nat), n < 16 ^ k → valNibbles (toHexNibbles n k) = n
  | 0, n, h => by
    have hn : n = 0 := Nat.lt_one_iff.mp (by simpa using h)
    subst hn
    rfl
  | k + 1, n, h => by
    have hp : (16 : Nat) ^ (k + 1) = 16 * 16 ^ k := by
      rw [pow_succ]
      ring
    have hdiv : n / 16 < 16 ^ k := Nat.div_lt_of_lt_mul (hp ▸ h)
    have ih := valNibbles_toHexNibbles k (n / 16) hdiv
    calc valNibbles (toHexNibbles n (k + 1))
        = 16 * valNibbles (toHexNibbles (n / 16) k) + n % 16 := by
          simp [toHexNibbles, valNibbles_append_one]
      _ = 16 * (n / 16) + n % 16 := by rw [ih]
      _ = n := by omega

theorem hexVal_nibbleChar : ∀ d : Fin 16, hexVal (nibbleChar d.val) = some d.val := by decide

theorem nibbleChar_ne_dash : ∀ d : Fin 16, ¬ nibbleChar d.val = '-' := by decide

theorem nibbleChar_ne_slash : ∀ d : Fin 16, ¬ nibbleChar d.val = '/' := by decide

theorem parseHexAcc_map_nibble :
    ∀ (ds : List Nat), (∀ d ∈ ds, d < 16) → ∀ a : Nat,
      parseHexAcc (ds.map nibbleChar) a = some (ds.foldl (fun x d => 16 * x + d) a)
  | [], _, a => rfl
  | d :: ds, h, a => by
    have hd : d < 16 := h d (List.mem_cons_self d ds)
    have ih := parseHexAcc_map_nibble ds (fun x hx => h x (List.mem_cons_of_mem d hx))
    simp only [List.map_cons, parseHexAcc, hexVal_nibbleChar ⟨d, hd⟩, List.foldl_cons]
    exact ih _

theorem parseHex_map_nibble (ds : List Nat) (h : ∀ d ∈ ds, d < 16) :
    parseHex (ds.map nibbleChar) = some (valNibbles ds) :=
  parseHexAcc_map_nibble ds h 0

theorem length_uuidDigits (u : Nat) : (uuidDigits u).length = 32 := by
  simp [uuidDigits, length_toHexNibbles]

theorem mem_uuidDigits {u : Nat} {c : Char} (h : c ∈ uuidDigits u) :
    ¬ c = '-' ∧ ¬ c = '/' := by
  rcases List.mem_map.mp h with ⟨d, hd, rfl⟩
  have hlt : d < 16 := mem_toHexNibbles_lt 32 u d hd
  exact ⟨nibbleChar_ne_dash ⟨d, hlt⟩, nibbleChar_ne_slash ⟨d, hlt⟩⟩

theorem uuidToString_eq (u : Nat) :
    uuidToString u =
      (uuidDigits u).take 8 ++ ('-' :: (((uuidDigits u).drop 8).take 4 ++
        ('-' :: (((uuidDigits u).drop 12).take 4 ++
          ('-' :: (((uuidDigits u).drop 16).take 4 ++
            ('-' :: (uuidDigits u).drop 20))))))) := by
  simp [uuidToString, uuidDigits, List.cons_append, List.append_assoc]

theorem parseUuid_uuidToString {u : Nat} (hu : u < 2 ^ 128) :
    parseUuid (uuidToString u) = some u := by
  set d := uuidDigits u with hd
  have hdl : d.length = 32 := length_uuidDigits u
  have hnd1 : '-' ∉ d.take 8 := fun hm => (mem_uuidDigits (List.mem_of_mem_take hm)).1 rfl
  have hnd2 : '-' ∉ (d.drop 8).take 4 := fun hm =>
    (mem_uuidDigits (List.mem_of_mem_drop (List.mem_of_mem_take hm))).1 rfl
  have hnd3 : '-' ∉ (d.drop 12).take 4 := fun hm =>
    (mem_uuidDigits (List.mem_of_mem_drop (List.mem_of_mem_take hm))).1 rfl
  have hnd4 : '-' ∉ (d.drop 16).take 4 := fun hm =>
    (mem_uuidDigits (List.mem_of_mem_drop (List.mem_of_mem_take hm))).1 rfl
  have hnd5 : '-' ∉ d.drop 20 := fun hm => (mem_uuidDigits (List.mem_of_mem_drop hm)).1 rfl
  have hlen : (uuidToString u).length = 36 := by
    rw [uuidToString_eq]
    simp [List.length_append, List.length_take, List.length_drop, ← hd, hdl]
  have hsplit : splitDash (uuidToString u) =
      [d.take 8, (d.drop 8).take 4, (d.drop 12).take 4, (d.drop 16).take 4, d.drop 20] := by
    rw [uuidToString_eq, ← hd]
    show splitCh '-' _ = _
    rw [splitCh_append _ _ hnd1, splitCh_append _ _ hnd2, splitCh_append _ _ hnd3,
      splitCh_append _ _ hnd4, splitCh_of_not_mem _ hnd5]
  have hrecomb : d.take 8 ++ ((d.drop 8).take 4 ++ ((d.drop 12).take 4 ++
      ((d.drop 16).take 4 ++ d.drop 20))) = d := by
    have h20 : d.drop 20 = (d.drop 16).drop 4 := by rw [List.drop_drop]
    have h16 : (d.drop 16).take 4 ++ d.drop 20 = d.drop 16 := by
      rw [h20, List.take_append_drop]
    have h12 : (d.drop 12).take 4 ++ d.drop 16 = d.drop 12 := by
      have hh : d.drop 16 = (d.drop 12).drop 4 := by rw [List.drop_drop]
      rw [hh, List.take_append_drop]
    have h8 : (d.drop 8).take 4 ++ d.drop 12 = d.drop 8 := by
      have hh : d.drop 12 = (d.drop 8).drop 4 := by rw [List.drop_drop]
      rw [hh, List.take_append_drop]
    rw [h16, h12, h8, List.take_append_drop]
  have hparse : parseHex d = some u := by
    have hval : valNibbles (toHexNibbles u 32) = u := by
      apply valNibbles_toHexNibbles
      calc u < 2 ^ 128 := hu
        _ = 16 ^ 32 := by norm_num
    rw [hd]
    show parseHex ((toHexNibbles u 32).map nibbleChar) = some u
    rw [parseHex_map_nibble _ (mem_toHexNibbles_lt 32 u), hval]
  have h1 : (d.take 8).length = 8 := by simp [List.length_take, hdl]
  have h2 : ((d.drop 8).take 4).length = 4 := by simp [List.length_take, List.length_drop, hdl]
  have h3 : ((d.drop 12).take 4).length = 4 := by simp [List.length_take, List.length_drop, hdl]
  have h4 : ((d.drop 16).take 4).length = 4 := by simp [List.length_take, List.length_drop, hdl]
  have h5 : (d.drop 20).length = 12 := by simp [List.length_drop, hdl]
  unfold parseUuid
  rw [if_neg (by omega : ¬ (uuidToString u).length = 32), hsplit]
  simp only [h1, h2, h3, h4, h5, and_self, if_true]
  simp only [List.append_assoc]
  rw [hrecomb]
  exact hparse

theorem takeUntilSlash_of_not_mem : ∀ {s : Chars}, '/' ∉ s → takeUntilSlash s = s
  | [], _ => rfl
  | c :: cs, h => by
    have hc : ¬ c = '/' := fun hh => h (hh ▸ List.mem_cons_self c cs)
    have ih := takeUntilSlash_of_not_mem (s := cs) (fun hm => h (List.mem_cons_of_mem c hm))
    simp [takeUntilSlash, hc, ih]

theorem trimEndSlashes_of_getLast {s : Chars} {c : Char} (h : s.getLast? = some c)
    (hc : ¬ c = '/') : trimEndSlashes s = s := by
  unfold trimEndSlashes
  have hrev : s.reverse.head? = some c := by
    rw [List.head?_reverse]
    exact h
  match hs : s.reverse with
  | [] => rw [hs] at hrev; simp at hrev
  | x :: xs =>
    rw [hs] at hrev
    have hx : x = c := by simpa using hrev
    rw [List.dropWhile_cons, if_neg (by simpa [hx] using hc)]
    rw [← hs, List.reverse_reverse]

theorem slash_not_mem_uuidToString (u : Nat) : '/' ∉ uuidToString u := by
  intro hm
  rw [uuidToString_eq] at hm
  simp only [List.mem_append, List.mem_cons] at hm
  rcases hm with h | h | h
  · exact (mem_uuidDigits (List.mem_of_mem_take h)).2 rfl
  · exact absurd h.symm (by decide)
  · rcases h with h | h | h
    · exact (mem_uuidDigits (List.mem_of_mem_drop (List.mem_of_mem_take h))).2 rfl
    · exact absurd h.symm (by decide)
    · rcases h with h | h | h
      · exact (mem_uuidDigits (List.mem_of_mem_drop (List.mem_of_mem_take h))).2 rfl
      · exact absurd h.symm (by decide)
      · rcases h with h | h | h
        · exact (mem_uuidDigits (List.mem_of_mem_drop (List.mem_of_mem_take h))).2 rfl
        · exact absurd h.symm (by decide)
        · exact (mem_uuidDigits (List.mem_of_mem_drop h)).2 rfl

theorem uuidToString_ne_nil (u : Nat) : uuidToString u ≠ [] := by
  intro h
  have h36 : (uuidToString u).length = 36 := by
    rw [uuidToString_eq]
    simp [List.length_append, List.length_take, List.length_drop, length_uuidDigits]
  rw [h] at h36
  simp at h36

theorem uuidToString_getLast (u : Nat) :
    ∃ c, (uuidToString u).getLast? = some c ∧ ¬ c = '/' := by
  have hne : uuidToString u ≠ [] := uuidToString_ne_nil u
  refine ⟨(uuidToString u).getLast hne, List.getLast?_eq_getLast _ hne, ?_⟩
  intro hc
  exact slash_not_mem_uuidToString u (hc ▸ List.getLast_mem hne)

theorem uuidToString_head (u : Nat) :
    ∃ c t, uuidToString u = c :: t ∧ ¬ c = '/' := by
  match hs : uuidToString u with
  | [] => exact absurd hs (uuidToString_ne_nil u)
  | c :: t =>
    refine ⟨c, t, rfl, fun hc => slash_not_mem_uuidToString u ?_⟩
    rw [hs, hc]
    exact List.mem_cons_self _ _

theorem stripOnce_append : ∀ (p s : Chars), stripOnce p (p ++ s) = some s
  | [], s => rfl
  | c :: cs, s => by simp [stripOnce, stripOnce_append cs s]

theorem stripRepeatGo_of_none {pat s : Chars} (h : stripOnce pat s = none) :
    ∀ f, stripRepeatGo pat f s = s
  | 0 => rfl
  | f + 1 => by simp [stripRepeatGo, h]

/-- Stripping the `/session/` pattern from `/session/<uuid text><rest>`
leaves `<uuid text><rest>` exactly when the uuid text starts the remainder
(it begins with a hex character, not `'/'`). -/
theorem stripRepeat_session (x : Chars) (c : Char) (t : Chars)
    (hx : x = c :: t) (hc : ¬ c = '/') :
    stripRepeat sessionPreChars (sessionPreChars ++ x) = x := by
  unfold stripRepeat
  show stripRepeatGo sessionPreChars ((sessionPreChars ++ x).length + 1) _ = x
  rw [show stripRepeatGo sessionPreChars ((sessionPreChars ++ x).length + 1)
      (sessionPreChars ++ x) =
      match stripOnce sessionPreChars (sessionPreChars ++ x) with
      | some rest => stripRepeatGo sessionPreChars (sessionPreChars ++ x).length rest
      | none => sessionPreChars ++ x from rfl]
  rw [stripOnce_append]
  apply stripRepeatGo_of_none
  rw [hx]
  rw [show stripOnce sessionPreChars (c :: t) =
      if '/' = c then stripOnce ("session/".toList) t else none from rfl]
  rw [if_neg (fun h => hc h.symm)]

/-! ## Registry association-list lemmas -/

theorem lookupA_removeA_self (l : List (Nat × Browser)) (k : Nat) :
    lookupA (removeA l k) k = none := by
  induction l with
  | nil => rfl
  | cons p l ih =>
    by_cases h : p.1 = k
    · simp [removeA, h, ih]
    · simp [removeA, lookupA, h, ih]

theorem lookupA_removeA_ne {k k2 : Nat} (hne : ¬ k2 = k) (l : List (Nat × Browser)) :
    lookupA (removeA l k) k2 = lookupA l k2 := by
  induction l with
  | nil => rfl
  | cons p l ih =>
    have hkk : ¬ k = k2 := fun hh => hne hh.symm
    by_cases h : p.1 = k
    · have hp : ¬ p.1 = k2 := by
        rw [h]
        exact hkk
      simp [removeA, lookupA, h, hp, hkk, ih]
    · by_cases h2 : p.1 = k2
      · simp [removeA, lookupA, h, h2, hne]
      · simp [removeA, lookupA, h, h2, ih]

theorem lookupA_mem {l : List (Nat × Browser)} {k : Nat} {b : Browser}
    (h : lookupA l k = some b) : (k, b) ∈ l := by
  induction l with
  | nil => simp [lookupA] at h
  | cons p l ih =>
    obtain ⟨p1, p2⟩ := p
    by_cases hp : p1 = k
    · simp only [lookupA, if_pos hp] at h
      have hb : p2 = b := Option.some_inj.mp h
      subst hp
      subst hb
      exact List.mem_cons_self _ _
    · simp only [lookupA, if_neg hp] at h
      exact List.mem_cons_of_mem _ (ih h)

theorem mem_removeA {l : List (Nat × Browser)} {k : Nat} {p : Nat × Browser}
    (h : p ∈ removeA l k) : p ∈ l ∧ ¬ p.1 = k := by
  induction l with
  | nil => simp [removeA] at h
  | cons q l ih =>
    by_cases hq : q.1 = k
    · rw [removeA, if_pos hq] at h
      exact ⟨List.mem_cons_of_mem _ (ih h).1, (ih h).2⟩
    · rw [removeA, if_neg hq] at h
      rcases List.mem_cons.mp h with rfl | h
      · exact ⟨List.mem_cons_self _ _, hq⟩
      · exact ⟨List.mem_cons_of_mem _ (ih h).1, (ih h).2⟩

theorem mem_updateCleanup {l : List (Nat × Browser)} {k t : Nat} {p : Nat × Browser}
    (h : p ∈ updateCleanup l k t) :
    (p.1 = k ∧ ∃ b, (k, b) ∈ l ∧ p.2 = { b with cleanup := t }) ∨ (¬ p.1 = k ∧ p ∈ l) := by
  induction l with
  | nil => simp [updateCleanup] at h
  | cons q l ih =>
    by_cases hq : q.1 = k
    · rw [updateCleanup, if_pos hq] at h
      rcases List.mem_cons.mp h with rfl | h
      · refine Or.inl ⟨hq, q.2, ?_, rfl⟩
        have hqq : (k, q.2) = q := by
          obtain ⟨q1, q2⟩ := q
          simp only at hq
          rw [hq]
        rw [hqq]
        exact List.mem_cons_self _ _
      · rcases ih h with ⟨h1, b, hb, h2⟩ | ⟨h1, h2⟩
        · exact Or.inl ⟨h1, b, List.mem_cons_of_mem _ hb, h2⟩
        · exact Or.inr ⟨h1, List.mem_cons_of_mem _ h2⟩
    · rw [updateCleanup, if_neg hq] at h
      rcases List.mem_cons.mp h with rfl | h
      · exact Or.inr ⟨hq, List.mem_cons_self _ _⟩
      · rcases ih h with ⟨h1, b, hb, h2⟩ | ⟨h1, h2⟩
        · exact Or.inl ⟨h1, b, List.mem_cons_of_mem _ hb, h2⟩
        · exact Or.inr ⟨h1, List.mem_cons_of_mem _ h2⟩

theorem map_fst_updateCleanup (l : List (Nat × Browser)) (k t : Nat) :
    (updateCleanup l k t).map Prod.fst = l.map Prod.fst := by
  induction l with
  | nil => rfl
  | cons q l ih =>
    by_cases hq : q.1 = k
    · simp [updateCleanup, hq, ih]
    · simp [updateCleanup, hq, ih]

theorem mem_removeTask {a : List (Nat × Nat)} {t : Nat} {p : Nat × Nat}
    (h : p ∈ removeTask a t) : p ∈ a ∧ ¬ p.1 = t := by
  induction a with
  | nil => simp [removeTask] at h
  | cons q a ih =>
    by_cases hq : q.1 = t
    · rw [removeTask, if_pos hq] at h
      exact ⟨List.mem_cons_of_mem _ (ih h).1, (ih h).2⟩
    · rw [removeTask, if_neg hq] at h
      rcases List.mem_cons.mp h with rfl | h
      · exact ⟨List.mem_cons_self _ _, hq⟩
      · exact ⟨List.mem_cons_of_mem _ (ih h).1, (ih h).2⟩

theorem armedFor_append (a1 a2 : List (Nat × Nat)) (u : Nat) :
    armedFor (a1 ++ a2) u = armedFor a1 u ++ armedFor a2 u := by
  induction a1 with
  | nil => rfl
  | cons p a1 ih =>
    by_cases hp : p.2 = u
    · simp [armedFor, hp, ih]
    · simp [armedFor, hp, ih]

theorem armedFor_removeTask (a : List (Nat × Nat)) (c u : Nat) :
    armedFor (removeTask a c) u = removeTask (armedFor a u) c := by
  induction a with
  | nil => rfl
  | cons p a ih =>
    by_cases hc : p.1 = c
    · by_cases hu : p.2 = u
      · simp [removeTask, armedFor, hc, hu, ih]
      · simp [removeTask, armedFor, hc, hu, ih]
    · by_cases hu : p.2 = u
      · simp [removeTask, armedFor, hc, hu, ih]
      · simp [removeTask, armedFor, hc, hu, ih]

theorem mem_armedFor {a : List (Nat × Nat)} {u : Nat} {p : Nat × Nat}
    (h : p ∈ armedFor a u) : p ∈ a ∧ p.2 = u := by
  induction a with
  | nil => simp [armedFor] at h
  | cons q a ih =>
    by_cases hq : q.2 = u
    · rw [armedFor, if_pos hq] at h
      rcases List.mem_cons.mp h with rfl | h
      · exact ⟨List.mem_cons_self _ _, hq⟩
      · exact ⟨List.mem_cons_of_mem _ (ih h).1, (ih h).2⟩
    · rw [armedFor, if_neg hq] at h
      exact ⟨List.mem_cons_of_mem _ (ih h).1, (ih h).2⟩

/-! ## Probe-loop lemmas -/

theorem probeGo_succ (ok : Nat → Bool) (fuel : Nat) (s : ProbeSt) :
    probeGo ok (fuel + 1) s =
      if ok s.failed then some (ProbeResult.ready s)
      else if s.failed + 1 = 480 then some (ProbeResult.exited 1 (probeStep s))
      else probeGo ok fuel (probeStep s) := rfl

theorem warnUpTo_step (n : Nat) :
    (if n + 1 = 40 ∨ n + 1 = 80 ∨ n + 1 = 120 ∨ n + 1 = 480
      then warnUpTo n ++ [n + 1] else warnUpTo n) = warnUpTo (n + 1) := by
  by_cases h : n + 1 = 40 ∨ n + 1 = 80 ∨ n + 1 = 120 ∨ n + 1 = 480
  · rw [if_pos h]
    rcases h with h | h | h | h
    · have hn : n = 39 := by omega
      subst hn
      decide
    · have hn : n = 79 := by omega
      subst hn
      decide
    · have hn : n = 119 := by omega
      subst hn
      decide
    · have hn : n = 479 := by omega
      subst hn
      decide
  · rw [if_neg h]
    unfold warnUpTo
    apply List.filter_congr
    intro w hw
    push_neg at h
    fin_cases hw
    · exact decide_eq_decide.mpr (by omega)
    · exact decide_eq_decide.mpr (by omega)
    · exact decide_eq_decide.mpr (by omega)
    · exact decide_eq_decide.mpr (by omega)

theorem probeGo_spec (ok : Nat → Bool) :
    ∀ (fuel : Nat) (s : ProbeSt), 481 ≤ fuel + s.failed → s.failed ≤ 479 →
      s.sleptMs = 125 * s.failed → s.warns = warnUpTo s.failed →
      (∀ j, j < s.failed → ok j = false) →
      ∃ r, probeGo ok fuel s = some r ∧
        (∀ ps, r = ProbeResult.ready ps →
          ps.failed ≤ 479 ∧ ok ps.failed = true ∧ (∀ j, j < ps.failed → ok j = false) ∧
          ps.sleptMs = 125 * ps.failed ∧ ps.warns = warnUpTo ps.failed) ∧
        (∀ c ps, r = ProbeResult.exited c ps →
          c = 1 ∧ ps.failed = 480 ∧ (∀ j, j < 480 → ok j = false) ∧
          ps.warns = [40, 80, 120, 480] ∧ ps.sleptMs = 60000)
  | 0, s, hfuel, hcap, _, _, _ => absurd hfuel (by omega)
  | fuel + 1, s, hfuel, hcap, hslept, hwarns, hfail => by
    rw [probeGo_succ]
    by_cases hok : ok s.failed = true
    · rw [if_pos hok]
      refine ⟨ProbeResult.ready s, rfl, ?_, ?_⟩
      · intro ps hps
        cases hps
        exact ⟨hcap, hok, hfail, hslept, hwarns⟩
      · intro c ps hps
        cases hps
    · have hokf : ok s.failed = false := by
        cases h : ok s.failed
        · rfl
        · exact absurd h hok
      rw [if_neg (by simp [hokf])]
      have hfails : ∀ j, j < s.failed + 1 → ok j = false := by
        intro j hj
        by_cases hjf : j < s.failed
        · exact hfail j hjf
        · have hje : j = s.failed := by omega
          rw [hje]
          exact hokf
      by_cases h480 : s.failed + 1 = 480
      · rw [if_pos h480]
        refine ⟨ProbeResult.exited 1 (probeStep s), rfl, ?_, ?_⟩
        · intro ps hps
          cases hps
        · intro c ps hps
          cases hps
          have hf : s.failed = 479 := by omega
          refine ⟨rfl, ?_, ?_, ?_, ?_⟩
          · show s.failed + 1 = 480
            exact h480
          · intro j hj
            exact hfails j (by omega)
          · show (if _ then s.warns ++ [s.failed + 1] else s.warns) = [40, 80, 120, 480]
            rw [hwarns, warnUpTo_step, h480]
            decide
          · show s.sleptMs + 125 = 60000
            rw [hslept, hf]
      · rw [if_neg h480]
        have hnext : (probeStep s).failed ≤ 479 := by
          show s.failed + 1 ≤ 479
          omega
        exact probeGo_spec ok fuel (probeStep s)
          (by show 481 ≤ fuel + (s.failed + 1); omega) hnext
          (by show s.sleptMs + 125 = 125 * (s.failed + 1)
              rw [hslept]
              ring)
          (by show (if _ then s.warns ++ [s.failed + 1] else s.warns) = warnUpTo (s.failed + 1)
              rw [hwarns]
              exact warnUpTo_step s.failed)
          hfails

/-! ## Port-allocator lemmas -/

theorem allocGo_succ (bindOk : Nat → Bool) (fuel c : Nat) :
    allocGo bindOk (fuel + 1) c =
      if bindOk c then some (c, (c + 1) % 65536)
      else allocGo bindOk fuel ((c + 1) % 65536) := rfl

/-- The loop steps over `k` consecutive failing cursor values, the cursor
advancing modulo 2^16 just as the wrapping `u16` increment does. -/
theorem allocGo_skip_range (bindOk : Nat → Bool) :
    ∀ (k fuel c : Nat), c < 65536 →
      (∀ j, j < k → bindOk ((c + j) % 65536) = false) →
      allocGo bindOk (k + fuel) c = allocGo bindOk fuel ((c + k) % 65536)
  | 0, fuel, c, hc, _ => by
    rw [Nat.zero_add, Nat.add_zero, Nat.mod_eq_of_lt hc]
  | k + 1, fuel, c, hc, h => by
    have hc0 : bindOk c = false := by
      have hh := h 0 (by omega)
      rwa [Nat.add_zero, Nat.mod_eq_of_lt hc] at hh
    rw [show (k + 1) + fuel = (k + fuel) + 1 from by ring, allocGo_succ,
      if_neg (by simp [hc0])]
    have hlt : (c + 1) % 65536 < 65536 := Nat.mod_lt _ (by norm_num)
    have hnext : ∀ j, j < k → bindOk (((c + 1) % 65536 + j) % 65536) = false := by
      intro j hj
      rw [Nat.mod_add_mod, show c + 1 + j = c + (j + 1) from by ring]
      exact h (j + 1) (by omega)
    rw [allocGo_skip_range bindOk k fuel ((c + 1) % 65536) hlt hnext,
      Nat.mod_add_mod, show c + 1 + k = c + (k + 1) from by ring]

theorem allocGo_spec (bindOk : Nat → Bool) :
    ∀ (fuel c p c2 : Nat), allocGo bindOk fuel c = some (p, c2) → c + fuel ≤ 65535 →
      c ≤ p ∧ bindOk p = true ∧ (∀ j, c ≤ j → j < p → bindOk j = false) ∧ c2 = p + 1
  | 0, c, p, c2, h, _ => by simp [allocGo] at h
  | fuel + 1, c, p, c2, h, hcap => by
    by_cases hb : bindOk c = true
    · rw [allocGo, if_pos hb] at h
      have hpair : (c, (c + 1) % 65536) = (p, c2) := Option.some_inj.mp h
      have hcp : c = p := congrArg Prod.fst hpair
      have hc2 : (c + 1) % 65536 = c2 := congrArg Prod.snd hpair
      have hmod : (c + 1) % 65536 = c + 1 := Nat.mod_eq_of_lt (by omega)
      refine ⟨by omega, by rw [← hcp]; exact hb, ?_, by omega⟩
      intro j h1 h2
      omega
    · have hbf : bindOk c = false := by
        cases hh : bindOk c
        · rfl
        · exact absurd hh hb
      rw [allocGo, if_neg hb] at h
      have hmod : (c + 1) % 65536 = c + 1 := Nat.mod_eq_of_lt (by omega)
      rw [hmod] at h
      have ih := allocGo_spec bindOk fuel (c + 1) p c2 h (by omega)
      refine ⟨by omega, ih.2.1, ?_, ih.2.2.2⟩
      intro j h1 h2
      by_cases hj : j = c
      · rw [hj]
        exact hbf
      · exact ih.2.2.1 j (by omega) h2

/-! ## More registry lemmas -/

theorem removeA_sublist : ∀ (l : List (Nat × Browser)) (k : Nat),
    List.Sublist (removeA l k) l
  | [], _ => List.Sublist.refl _
  | p :: l, k => by
    by_cases h : p.1 = k
    · rw [removeA, if_pos h]
      exact (removeA_sublist l k).cons p
    · rw [removeA, if_neg h]
      exact (removeA_sublist l k).cons₂ p

theorem removeTask_sublist : ∀ (a : List (Nat × Nat)) (t : Nat),
    List.Sublist (removeTask a t) a
  | [], _ => List.Sublist.refl _
  | p :: a, t => by
    by_cases h : p.1 = t
    · rw [removeTask, if_pos h]
      exact (removeTask_sublist a t).cons p
    · rw [removeTask, if_neg h]
      exact (removeTask_sublist a t).cons₂ p

theorem nodup_fst_unique {α : Type} {l : List (Nat × α)} (h : (l.map Prod.fst).Nodup)
    {p q : Nat × α} (hp : p ∈ l) (hq : q ∈ l) (hfst : p.1 = q.1) : p = q := by
  induction l with
  | nil => simp at hp
  | cons x l ih =>
    rw [List.map_cons, List.nodup_cons] at h
    rcases List.mem_cons.mp hp with rfl | hp2
    · rcases List.mem_cons.mp hq with rfl | hq2
      · rfl
      · exact absurd (hfst ▸ List.mem_map_of_mem Prod.fst hq2) h.1
    · rcases List.mem_cons.mp hq with rfl | hq2
      · exact absurd (hfst ▸ List.mem_map_of_mem Prod.fst hp2) h.1
      · exact ih h.2 hp2 hq2

theorem lookupA_none_not_mem : ∀ {l : List (Nat × Browser)} {k : Nat},
    lookupA l k = none → ∀ b, (k, b) ∉ l
  | [], _, _, b => List.not_mem_nil _
  | p :: l, k, h, b => by
    by_cases hp : p.1 = k
    · rw [lookupA, if_pos hp] at h
      cases h
    · rw [lookupA, if_neg hp] at h
      intro hm
      rcases List.mem_cons.mp hm with heq | hm2
      · exact hp (by rw [← heq])
      · exact lookupA_none_not_mem h b hm2

theorem removeA_of_lookupA_none : ∀ {l : List (Nat × Browser)} {k : Nat},
    lookupA l k = none → removeA l k = l
  | [], _, _ => rfl
  | p :: l, k, h => by
    by_cases hp : p.1 = k
    · rw [lookupA, if_pos hp] at h
      cases h
    · rw [lookupA, if_neg hp] at h
      rw [removeA, if_neg hp, removeA_of_lookupA_none h]

theorem armedFor_mem_of {a : List (Nat × Nat)} {u : Nat} {p : Nat × Nat}
    (hp : p ∈ a) (hu : p.2 = u) : p ∈ armedFor a u := by
  induction a with
  | nil => simp at hp
  | cons q a ih =>
    rcases List.mem_cons.mp hp with rfl | hp2
    · rw [armedFor, if_pos hu]
      exact List.mem_cons_self _ _
    · by_cases hq : q.2 = u
      · rw [armedFor, if_pos hq]
        exact List.mem_cons_of_mem _ (ih hp2)
      · rw [armedFor, if_neg hq]
        exact ih hp2

theorem armedFor_eq_nil {a : List (Nat × Nat)} {u : Nat}
    (h : ∀ p ∈ a, ¬ p.2 = u) : armedFor a u = [] := by
  induction a with
  | nil => rfl
  | cons q a ih =>
    rw [armedFor, if_neg (h q (List.mem_cons_self _ _))]
    exact ih (fun p hp => h p (List.mem_cons_of_mem _ hp))

theorem lookupA_updateCleanup_self : ∀ (l : List (Nat × Browser)) (k t : Nat),
    lookupA (updateCleanup l k t) k =
      (lookupA l k).map (fun b => { b with cleanup := t })
  | [], _, _ => rfl
  | p :: l, k, t => by
    by_cases hp : p.1 = k
    · rw [updateCleanup, if_pos hp]
      rw [show lookupA ((p.1, { p.2 with cleanup := t }) :: updateCleanup l k t) k =
          if p.1 = k then some { p.2 with cleanup := t } else
            lookupA (updateCleanup l k t) k from rfl]
      rw [if_pos hp, lookupA, if_pos hp]
      rfl
    · rw [updateCleanup, if_neg hp, lookupA, if_neg hp, lookupA, if_neg hp,
        lookupA_updateCleanup_self l k t]

theorem lookupA_updateCleanup_ne {k k2 : Nat} (hne : ¬ k2 = k) :
    ∀ (l : List (Nat × Browser)) (t : Nat),
      lookupA (updateCleanup l k t) k2 = lookupA l k2
  | [], _ => rfl
  | p :: l, t => by
    by_cases hp : p.1 = k
    · have hp2 : ¬ p.1 = k2 := by
        rw [hp]
        exact fun hh => hne hh.symm
      rw [updateCleanup, if_pos hp]
      rw [show lookupA ((p.1, { p.2 with cleanup := t }) :: updateCleanup l k t) k2 =
          if p.1 = k2 then some { p.2 with cleanup := t } else
            lookupA (updateCleanup l k t) k2 from rfl]
      rw [if_neg hp2, lookupA, if_neg hp2, lookupA_updateCleanup_ne hne l t]
    · rw [updateCleanup, if_neg hp, lookupA, lookupA, lookupA_updateCleanup_ne hne l t]

/-! ## Preservation of well-formedness by the registry operations -/

theorem regWf_rearm {st : St} {u : Nat} {b : Browser} (hwf : RegWf st)
    (hb : lookupA st.registry u = some b) : RegWf (rearmOp st u b) := by
  have hub : (u, b) ∈ st.registry := lookupA_mem hb
  have harm : armedFor st.armed u = [(b.cleanup, u)] := hwf.timers (u, b) hub
  have hbc : (b.cleanup, u) ∈ st.armed := by
    have : (b.cleanup, u) ∈ armedFor st.armed u := by
      rw [harm]
      exact List.mem_cons_self _ _
    exact (mem_armedFor this).1
  refine ⟨?_, ?_, ?_, ?_, ?_⟩
  · show ((updateCleanup st.registry u st.nextTask).map Prod.fst).Nodup
    rw [map_fst_updateCleanup]
    exact hwf.nodupKeys
  · show ((removeTask st.armed b.cleanup ++ [(st.nextTask, u)]).map Prod.fst).Nodup
    rw [List.map_append, List.nodup_append]
    refine ⟨((removeTask_sublist st.armed b.cleanup).map Prod.fst).nodup hwf.nodupTasks,
      List.nodup_singleton _, ?_⟩
    intro x hx
    rcases List.mem_map.mp hx with ⟨p, hp, rfl⟩
    have := hwf.freshTasks p (mem_removeTask hp).1
    simp only [List.map_cons, List.map_nil, List.mem_singleton]
    omega
  · intro p hp
    show p.1 < st.nextTask + 1
    rcases List.mem_append.mp hp with hp2 | hp2
    · have := hwf.freshTasks p (mem_removeTask hp2).1
      omega
    · rcases List.mem_singleton.mp hp2 with rfl
      omega
  · intro p hp
    rcases List.mem_append.mp hp with hp2 | hp2
    · have hreg := hwf.armedRegistered p (mem_removeTask hp2).1
      show (lookupA (updateCleanup st.registry u st.nextTask) p.2).isSome = true
      by_cases hu : p.2 = u
      · rw [hu, lookupA_updateCleanup_self, hb]
        rfl
      · rw [lookupA_updateCleanup_ne hu]
        exact hreg
    · rcases List.mem_singleton.mp hp2 with rfl
      show (lookupA (updateCleanup st.registry u st.nextTask) u).isSome = true
      rw [lookupA_updateCleanup_self, hb]
      rfl
  · intro q hq
    rcases mem_updateCleanup hq with ⟨h1, b2, hb2, h2⟩ | ⟨h1, h2⟩
    · have hbb : b2 = b := by
        have := nodup_fst_unique hwf.nodupKeys hb2 hub rfl
        exact congrArg Prod.snd this
      rw [hbb] at h2
      show armedFor (removeTask st.armed b.cleanup ++ [(st.nextTask, u)]) q.1 = _
      rw [h1, armedFor_append, armedFor_removeTask, harm]
      rw [show removeTask [(b.cleanup, u)] b.cleanup = [] by simp [removeTask]]
      rw [show armedFor [(st.nextTask, u)] u = [(st.nextTask, u)] by simp [armedFor]]
      rw [h2]
      rfl
    · have harm2 : armedFor st.armed q.1 = [(q.2.cleanup, q.1)] := hwf.timers q h2
      have hqc : (q.2.cleanup, q.1) ∈ st.armed := by
        have : (q.2.cleanup, q.1) ∈ armedFor st.armed q.1 := by
          rw [harm2]
          exact List.mem_cons_self _ _
        exact (mem_armedFor this).1
      have hne : ¬ q.2.cleanup = b.cleanup := by
        intro heq
        have := nodup_fst_unique hwf.nodupTasks hqc hbc heq
        have hsnd : q.1 = u := congrArg Prod.snd this
        exact h1 hsnd
      show armedFor (removeTask st.armed b.cleanup ++ [(st.nextTask, u)]) q.1 = _
      rw [armedFor_append, armedFor_removeTask, harm2]
      rw [show removeTask [(q.2.cleanup, q.1)] b.cleanup = [(q.2.cleanup, q.1)] by
        simp [removeTask, hne]]
      rw [show armedFor [(st.nextTask, u)] q.1 = [] by
        simp [armedFor, (show ¬ u = q.1 from fun h => h1 h.symm)]]
      rw [List.append_nil]

theorem regWf_delete {st : St} {u : Nat} {b : Browser} (hwf : RegWf st)
    (hb : lookupA st.registry u = some b) : RegWf (deleteOp st u b) := by
  have hub : (u, b) ∈ st.registry := lookupA_mem hb
  have harm : armedFor st.armed u = [(b.cleanup, u)] := hwf.timers (u, b) hub
  have hbc : (b.cleanup, u) ∈ st.armed := by
    have : (b.cleanup, u) ∈ armedFor st.armed u := by
      rw [harm]
      exact List.mem_cons_self _ _
    exact (mem_armedFor this).1
  refine ⟨?_, ?_, ?_, ?_, ?_⟩
  · exact ((removeA_sublist st.registry u).map Prod.fst).nodup hwf.nodupKeys
  · exact ((removeTask_sublist st.armed b.cleanup).map Prod.fst).nodup hwf.nodupTasks
  · intro p hp
    exact hwf.freshTasks p (mem_removeTask hp).1
  · intro p hp
    have hmem := (mem_removeTask hp).1
    have hnc := (mem_removeTask hp).2
    by_cases hu : p.2 = u
    · exfalso
      have hin : p ∈ armedFor st.armed u := armedFor_mem_of hmem hu
      rw [harm] at hin
      rcases List.mem_singleton.mp hin with rfl
      exact hnc rfl
    · show (lookupA (removeA st.registry u) p.2).isSome = true
      rw [lookupA_removeA_ne hu]
      exact hwf.armedRegistered p hmem
  · intro q hq
    have hmem := (mem_removeA hq).1
    have hne := (mem_removeA hq).2
    have harm2 : armedFor st.armed q.1 = [(q.2.cleanup, q.1)] := hwf.timers q hmem
    have hqc : (q.2.cleanup, q.1) ∈ st.armed := by
      have : (q.2.cleanup, q.1) ∈ armedFor st.armed q.1 := by
        rw [harm2]
        exact List.mem_cons_self _ _
      exact (mem_armedFor this).1
    have hnec : ¬ q.2.cleanup = b.cleanup := by
      intro heq
      have := nodup_fst_unique hwf.nodupTasks hqc hbc heq
      exact hne (congrArg Prod.snd this)
    show armedFor (removeTask st.armed b.cleanup) q.1 = _
    rw [armedFor_removeTask, harm2]
    simp [removeTask, hnec]

theorem regWf_insert {st : St} {sid : Nat} {addr : Addr} {proc : Nat} (hwf : RegWf st)
    (habsent : lookupA st.registry sid = none) : RegWf (insertOp st sid addr proc) := by
  have hreg : insertOp st sid addr proc =
      { st with
        registry := (sid, ⟨addr, proc, st.nextTask⟩) :: st.registry
        armed := st.armed ++ [(st.nextTask, sid)]
        nextTask := st.nextTask + 1 } := by
    unfold insertOp insertA
    rw [removeA_of_lookupA_none habsent]
  rw [hreg]
  have hkey : sid ∉ st.registry.map Prod.fst := by
    intro hm
    rcases List.mem_map.mp hm with ⟨p, hp, hfst⟩
    have : (sid, p.2) ∈ st.registry := by
      have hpe : p = (sid, p.2) := by
        obtain ⟨p1, p2⟩ := p
        simp only at hfst
        rw [hfst]
      exact hpe ▸ hp
    exact lookupA_none_not_mem habsent p.2 this
  have hnosid : armedFor st.armed sid = [] := by
    apply armedFor_eq_nil
    intro p hp hsid
    have := hwf.armedRegistered p hp
    rw [hsid, habsent] at this
    cases this
  refine ⟨?_, ?_, ?_, ?_, ?_⟩
  · show (sid :: st.registry.map Prod.fst).Nodup
    exact List.nodup_cons.mpr ⟨hkey, hwf.nodupKeys⟩
  · show ((st.armed ++ [(st.nextTask, sid)]).map Prod.fst).Nodup
    rw [List.map_append, List.nodup_append]
    refine ⟨hwf.nodupTasks, List.nodup_singleton _, ?_⟩
    intro x hx
    rcases List.mem_map.mp hx with ⟨p, hp, rfl⟩
    have := hwf.freshTasks p hp
    simp only [List.map_cons, List.map_nil, List.mem_singleton]
    omega
  · intro p hp
    show p.1 < st.nextTask + 1
    rcases List.mem_append.mp hp with hp2 | hp2
    · have := hwf.freshTasks p hp2
      omega
    · rcases List.mem_singleton.mp hp2 with rfl
      omega
  · intro p hp
    show (lookupA ((sid, ⟨addr, proc, st.nextTask⟩) :: st.registry) p.2).isSome = true
    rcases List.mem_append.mp hp with hp2 | hp2
    · by_cases hs : sid = p.2
      · rw [show lookupA ((sid, ⟨addr, proc, st.nextTask⟩) :: st.registry) p.2 =
          if sid = p.2 then some ⟨addr, proc, st.nextTask⟩ else lookupA st.registry p.2
          from rfl, if_pos hs]
        rfl
      · rw [show lookupA ((sid, ⟨addr, proc, st.nextTask⟩) :: st.registry) p.2 =
          if sid = p.2 then some ⟨addr, proc, st.nextTask⟩ else lookupA st.registry p.2
          from rfl, if_neg hs]
        exact hwf.armedRegistered p hp2
    · rcases List.mem_singleton.mp hp2 with rfl
      rw [show lookupA ((sid, ⟨addr, proc, st.nextTask⟩) :: st.registry) sid =
          if sid = sid then some ⟨addr, proc, st.nextTask⟩ else lookupA st.registry sid
          from rfl, if_pos rfl]
      rfl
  · intro q hq
    rcases List.mem_cons.mp hq with rfl | hq2
    · show armedFor (st.armed ++ [(st.nextTask, sid)]) sid = [(st.nextTask, sid)]
      rw [armedFor_append, hnosid]
      rw [show armedFor [(st.nextTask, sid)] sid = [(st.nextTask, sid)] by simp [armedFor]]
      rfl
    · have hne : ¬ q.1 = sid := by
        intro heq
        apply hkey
        rw [← heq]
        exact List.mem_map_of_mem Prod.fst hq2
      show armedFor (st.armed ++ [(st.nextTask, sid)]) q.1 = _
      rw [armedFor_append, hwf.timers q hq2]
      rw [show armedFor [(st.nextTask, sid)] q.1 = [] by
        simp [armedFor, (show ¬ sid = q.1 from fun h => hne h.symm)]]
      rw [List.append_nil]

theorem regWf_expire {st : St} {t u : Nat} (hwf : RegWf st)
    (hmem : (t, u) ∈ st.armed) : RegWf (expireOp st t u) := by
  have hlook : (lookupA st.registry u).isSome = true := hwf.armedRegistered (t, u) hmem
  obtain ⟨b, hb⟩ : ∃ b, lookupA st.registry u = some b := by
    cases hl : lookupA st.registry u
    · rw [hl] at hlook
      cases hlook
    · exact ⟨_, rfl⟩
  have hub : (u, b) ∈ st.registry := lookupA_mem hb
  have harm : armedFor st.armed u = [(b.cleanup, u)] := hwf.timers (u, b) hub
  have htb : t = b.cleanup := by
    have hin : (t, u) ∈ armedFor st.armed u := armedFor_mem_of hmem rfl
    rw [harm] at hin
    rcases List.mem_singleton.mp hin with heq
    exact congrArg Prod.fst heq
  refine ⟨?_, ?_, ?_, ?_, ?_⟩
  · exact ((removeA_sublist st.registry u).map Prod.fst).nodup hwf.nodupKeys
  · exact ((removeTask_sublist st.armed t).map Prod.fst).nodup hwf.nodupTasks
  · intro p hp
    exact hwf.freshTasks p (mem_removeTask hp).1
  · intro p hp
    have hpm := (mem_removeTask hp).1
    have hnc := (mem_removeTask hp).2
    by_cases hu : p.2 = u
    · exfalso
      have hin : p ∈ armedFor st.armed u := armedFor_mem_of hpm hu
      rw [harm] at hin
      rcases List.mem_singleton.mp hin with rfl
      exact hnc htb.symm
    · show (lookupA (removeA st.registry u) p.2).isSome = true
      rw [lookupA_removeA_ne hu]
      exact hwf.armedRegistered p hpm
  · intro q hq
    have hqm := (mem_removeA hq).1
    have hne := (mem_removeA hq).2
    have harm2 : armedFor st.armed q.1 = [(q.2.cleanup, q.1)] := hwf.timers q hqm
    have hqc : (q.2.cleanup, q.1) ∈ st.armed := by
      have : (q.2.cleanup, q.1) ∈ armedFor st.armed q.1 := by
        rw [harm2]
        exact List.mem_cons_self _ _
      exact (mem_armedFor this).1
    have hnec : ¬ q.2.cleanup = t := by
      intro heq
      have := nodup_fst_unique hwf.nodupTasks hqc (heq ▸ hmem : (q.2.cleanup, u) ∈ st.armed) rfl
      exact hne (congrArg Prod.snd this)
    show armedFor (removeTask st.armed t) q.1 = _
    rw [armedFor_removeTask, harm2]
    simp [removeTask, hnec]

/-- `proxy_request` for a supported method reduces to the send. -/
theorem proxyFwd_send (o : Backend) (a : Addr) (req : Req) (sr : Bool) (m : Method)
    (hm : toReqwestMethod req.method = some m) :
    proxyFwd o a req sr =
      match o.send m a (reqOutPath req sr) req.body with
      | none => FwdRes.transportErr
      | some r => FwdRes.got r := by
  unfold proxyFwd
  rw [hm]

/-! # Claim theorems -/

set_option maxRecDepth 40000

/-- C3 (counterexample): at a concrete `GET /status` the proxy answers 200
with `Content-Type: application/json` and a state left untouched, but the
body is the spaced literal of line 156, not the claim's canonical compact
string — the two byte strings differ. -/
theorem c3_status_body_counterexample :
    proxy meta0 o0 st0 reqStatus =
      Outcome.ok 200 [(ctKeyChars, ctJsonChars)] statusBodyChars st0 [] ∧
    ¬ statusBodyChars = claimedStatusBody := by decide

/-- C3 (amended): every `GET /status` or `HEAD /status` — after
trailing-slash normalization — yields status 200, `Content-Type:
application/json`, and byte-for-byte the body
`{ "value": { "ready": true, "message": "" } }` (the spaced literal of line
156), with the state unchanged and no registry or backend effect, on every
call identically. -/
theorem c3_status_route (meta : WebDriverMeta) (o : Backend) (st : St) (req : Req)
    (h : isStatusRoute req) :
    proxy meta o st req = Outcome.ok 200 [(ctKeyChars, ctJsonChars)] statusBodyChars st [] := by
  unfold proxy
  rw [if_pos h]

theorem c3_status_route_witness :
    isStatusRoute reqStatus ∧
      proxy meta0 o0 st0 reqStatus =
        Outcome.ok 200 [(ctKeyChars, ctJsonChars)] statusBodyChars st0 [] :=
  ⟨by decide, c3_status_route meta0 o0 st0 reqStatus (by decide)⟩

/-- C1: with the all-zero UUID registered, the inbound request
`GET /session/driver/00000000-0000-0000-0000-000000000000/status` is
rejected with 400 Bad Request: the id parser takes the segment after
`/session/` — the literal `driver` — which is no UUID, so the rearm and the
`status_request` forward of lines 336–348 are never reached. -/
theorem c1_driver_status_route_rejected :
    lookupA st0.registry 0 = some browser0 ∧
    extractUuid reqDriverStatus = none ∧
    proxy meta0 o0 st0 reqDriverStatus = Outcome.ok 400 [] [] st0 [] := by decide

/-- C4: a `PATCH /session/{uuid}/url` with the UUID registered is passed to
the forwarder by the dispatcher (after the rearm), where the method match of
`proxy_request` has no arm for PATCH — the `unreachable!()` panic is
reached. -/
theorem c4_patch_reaches_unreachable :
    lookupA st0.registry 0 = some browser0 ∧
    toReqwestMethod Method.PATCH = none ∧
    isPanicked (proxy meta0 o0 st0 reqPatch) = true := by decide

/-- C2: on the quoted parameter string `"ab cd"` the code's stripping keeps
only the first byte after the opening quote (`&tmp[..1]`), yielding `a`,
while the spec's outer-layer strip yields the inner substring `ab cd`,
space-split into `ab`, `cd`; the two disagree. -/
theorem c2_quote_strip_slice_bug :
    stripParameters paramsQuoted = some strA ∧
    specStripQuotes paramsQuoted = paramsInner ∧
    splitCh ' ' paramsInner = [wordAb, wordCd] ∧
    ¬ stripParameters paramsQuoted = some (specStripQuotes paramsQuoted) := by decide

/-- C7 (counterexample): with only port 4445 bindable, an allocation from
cursor 4445 returns port 4445 and leaves the cursor at 4446; the next
allocation probes 4446…65535, wraps the `u16` cursor to 0 (the code's
`*port = *port + 1` in a release build), climbs back and returns port 4445
a second time — two allocations returning the same port, through a cursor
that wrapped below its starting value. -/
theorem c7_wrap_port_reuse :
    allocGo bindOnly4445 65536 4445 = some (4445, 4446) ∧
    allocGo bindOnly4445 65536 4446 = some (4445, 4446) := by
  constructor
  · decide
  · have h1 : ∀ j, j < 61090 → bindOnly4445 ((4446 + j) % 65536) = false := by
      intro j hj
      rw [Nat.mod_eq_of_lt (by omega)]
      exact decide_eq_false (by omega)
    have h2 : ∀ j, j < 4445 → bindOnly4445 ((0 + j) % 65536) = false := by
      intro j hj
      rw [Nat.mod_eq_of_lt (by omega)]
      exact decide_eq_false (by omega)
    calc allocGo bindOnly4445 65536 4446
        = allocGo bindOnly4445 (61090 + 4446) 4446 := by norm_num
      _ = allocGo bindOnly4445 4446 ((4446 + 61090) % 65536) :=
          allocGo_skip_range bindOnly4445 61090 4446 4446 (by omega) h1
      _ = allocGo bindOnly4445 (4445 + 1) 0 := by norm_num
      _ = allocGo bindOnly4445 1 ((0 + 4445) % 65536) :=
          allocGo_skip_range bindOnly4445 4445 1 0 (by omega) h2
      _ = some (4445, 4446) := by decide

/-- C7 (amended): as long as the `u16` cursor does not wrap past 65535, the
allocation loop returns the first bindable port at or above the cursor,
increments the cursor past it before returning (under the `next_port`
mutex), and increments-and-retries on each failed probe; hence two
successive allocations (with any bind outcomes) return strictly increasing
— never equal — ports, and the cursor never decreases.  With wrap-around a
port can be returned twice, per the counterexample. -/
theorem c7_alloc_monotone (bind1 bind2 : Nat → Bool) (f1 f2 c p c2 p2 c3 : Nat)
    (h1 : allocGo bind1 f1 c = some (p, c2)) (hc1 : c + f1 ≤ 65535)
    (h2 : allocGo bind2 f2 c2 = some (p2, c3)) (hc2 : c2 + f2 ≤ 65535) :
    c ≤ p ∧ c2 = p + 1 ∧ bind1 p = true ∧
      (∀ j, c ≤ j → j < p → bind1 j = false) ∧
      c2 ≤ p2 ∧ c3 = p2 + 1 ∧ p < p2 ∧ ¬ p = p2 := by
  obtain ⟨ha, hb, hcf, hd⟩ := allocGo_spec bind1 f1 c p c2 h1 hc1
  obtain ⟨ha2, hb2, hcf2, hd2⟩ := allocGo_spec bind2 f2 c2 p2 c3 h2 hc2
  exact ⟨ha, hd, hb, hcf, ha2, hd2, by omega, by omega⟩

theorem c7_alloc_monotone_witness :
    allocGo bindAll 1 4445 = some (4445, 4446) ∧
    allocGo bindAll 1 4446 = some (4446, 4447) ∧
    ¬ (4445 : Nat) = 4446 :=
  ⟨by decide, by decide,
    (c7_alloc_monotone bindAll bindAll 1 1 4445 4445 4446 4446 4447
      (by decide) (by decide) (by decide) (by decide)).2.2.2.2.2.2.2⟩

/-- C9: the readiness prober succeeds exactly on a 2xx status; it always
terminates within the built-in cap: either it breaks at the first 2xx after
`k ≤ 479` failures — having slept 125 ms per failed attempt and warned
exactly at the attempt numbers among 40, 80, 120 reached so far — or, when
the first 480 attempts all fail, it warns at 40, 80, 120 and 480 and exits
the whole process with code 1 after 480·125 ms = 60 s of sleeping; the loop
never runs past 480 failed attempts. -/
theorem c9_probe_loop (probe : Nat → Option Nat) :
    (∀ n s, probe n = some s → (probeOk probe n = true ↔ (200 ≤ s ∧ s < 300))) ∧
    (∃ r, probeLoop probe = some r ∧
      (∀ ps, r = ProbeResult.ready ps →
        ps.failed ≤ 479 ∧ probeOk probe ps.failed = true ∧
        (∀ j, j < ps.failed → probeOk probe j = false) ∧
        ps.sleptMs = 125 * ps.failed ∧ ps.warns = warnUpTo ps.failed) ∧
      (∀ c ps, r = ProbeResult.exited c ps →
        c = 1 ∧ ps.failed = 480 ∧ (∀ j, j < 480 → probeOk probe j = false) ∧
        ps.warns = [40, 80, 120, 480] ∧ ps.sleptMs = 60000)) := by
  constructor
  · intro n s hs
    unfold probeOk
    rw [hs]
    exact decide_eq_true_iff
  · exact probeGo_spec (probeOk probe) 481 ⟨0, [], 0⟩ (by decide) (by decide) (by decide)
      (by decide) (fun j hj => absurd hj (Nat.not_lt_zero j))

theorem c9_probe_loop_witness :
    probeLoop probeNever = some (ProbeResult.exited 1 probeFinal480) ∧
    probeOk probeNever 5 = false := by
  have hcomp : probeLoop probeNever = some (ProbeResult.exited 1 probeFinal480) := by decide
  obtain ⟨r, hr, _hready, hexit⟩ := (c9_probe_loop probeNever).2
  have hre : r = ProbeResult.exited 1 probeFinal480 :=
    Option.some_inj.mp (hr.symm.trans hcomp)
  exact ⟨hcomp, ((hexit 1 probeFinal480 hre).2.2.1 5 (by omega))⟩

/-- C5: for a `POST /session` whose port allocation, spawn, readiness probe,
forward and body parse all succeed, the response carries the backend's
status and headers with the JSON body rewritten so that its `sessionId`
field is the received identifier — or the all-zero identifier when the
backend sent null — and afterwards the registry maps exactly that
identifier to a Browser holding the new backend's address, with a freshly
armed expiry task. -/
theorem c5_new_session_registers (meta : WebDriverMeta) (o : Backend) (st : St) (req : Req)
    (hroute : isNewSessionRoute req) (port cursor2 : Nat)
    (halloc : allocGo o.bindOk 65536 st.nextPort = some (port, cursor2))
    (hspawn : o.spawnOk = true) (ps : ProbeSt)
    (hprobe : probeLoop o.probe = some (ProbeResult.ready ps)) (r : BackendResp)
    (hsend : o.send Method.POST ⟨meta.host, port⟩ (reqOutPath req false) req.body = some r)
    (sv : SessVal) (hparse : o.parse r.body = some sv) :
    proxy meta o st req =
      Outcome.ok r.status r.headers
        (serializeSession (sv.sessionId.getD 0) sv.capabilities)
        (insertOp { st with nextPort := cursor2, nextProc := st.nextProc + 1 }
          (sv.sessionId.getD 0) ⟨meta.host, port⟩ st.nextProc)
        ([Ev.spawnedProcess st.nextProc port] ++ ps.warns.map Ev.warned ++
          [Ev.forwarded Method.POST ⟨meta.host, port⟩ (reqOutPath req false) false,
           Ev.spawnedTask st.nextTask (sv.sessionId.getD 0)]) ∧
    lookupA (insertOp { st with nextPort := cursor2, nextProc := st.nextProc + 1 }
        (sv.sessionId.getD 0) ⟨meta.host, port⟩ st.nextProc).registry
      (sv.sessionId.getD 0) = some ⟨⟨meta.host, port⟩, st.nextProc, st.nextTask⟩ ∧
    (sv.sessionId = none → sv.sessionId.getD 0 = 0) ∧
    (∀ x, sv.sessionId = some x → sv.sessionId.getD 0 = x) := by
  have hstat : ¬ isStatusRoute req := by
    intro hs
    rcases hs.1 with h | h
    · rw [hroute.1] at h
      cases h
    · rw [hroute.1] at h
      cases h
  refine ⟨?_, ?_, ?_, ?_⟩
  · unfold proxy
    rw [if_neg hstat, if_pos hroute]
    simp only [handleNewSession, halloc, hroute.1, hspawn, hprobe, proxyFwd, toReqwestMethod,
      hsend, hparse, if_true]
  · show lookupA ((sv.sessionId.getD 0, ⟨⟨meta.host, port⟩, st.nextProc, st.nextTask⟩) ::
        removeA st.registry (sv.sessionId.getD 0)) (sv.sessionId.getD 0) =
      some ⟨⟨meta.host, port⟩, st.nextProc, st.nextTask⟩
    simp [lookupA]
  · intro h
    rw [h]
    rfl
  · intro x h
    rw [h]
    rfl

theorem c5_new_session_registers_witness :
    isNewSessionRoute reqNewSession ∧
    allocGo o0.bindOk 65536 stEmpty.nextPort = some (4445, 4446) ∧
    probeLoop o0.probe = some (ProbeResult.ready ⟨0, [], 0⟩) ∧
    lookupA (insertOp { stEmpty with nextPort := 4446, nextProc := 1 } 0
        ⟨meta0.host, 4445⟩ 0).registry 0 = some ⟨⟨meta0.host, 4445⟩, 0, 0⟩ :=
  ⟨by decide, by decide, by decide,
    (c5_new_session_registers meta0 o0 stEmpty reqNewSession (by decide) 4445 4446 (by decide)
      rfl ⟨0, [], 0⟩ (by decide) backendOkResp rfl sessVal0 rfl).2.1⟩

theorem trimEnd_session_uuid (u : Nat) :
    trimEndSlashes (sessionPreChars ++ uuidToString u) = sessionPreChars ++ uuidToString u := by
  obtain ⟨c, hlast, hc⟩ := uuidToString_getLast u
  refine trimEndSlashes_of_getLast (c := c) ?_ hc
  rw [List.getLast?_append, hlast]
  rfl

theorem extractUuid_session (u : Nat) (hu : u < 2 ^ 128) (req : Req)
    (hp : req.path = sessionPreChars ++ uuidToString u) :
    extractUuid req = some u ∧ trimEndSlashes req.path = req.path := by
  obtain ⟨c, t, hct, hc⟩ := uuidToString_head u
  have htrim : trimEndSlashes req.path = req.path := by
    rw [hp]
    exact trimEnd_session_uuid u
  refine ⟨?_, htrim⟩
  unfold extractUuid
  rw [htrim, hp, stripRepeat_session (uuidToString u) c t hct hc,
    takeUntilSlash_of_not_mem (slash_not_mem_uuidToString u), parseUuid_uuidToString hu]

/-- C6: a `DELETE /session/{uuid}` (canonical textual uuid) with the id
present first removes the registry entry, then aborts its expiry task, then
forwards the DELETE, and returns the backend's response; afterwards the
registry no longer contains the id.  With the id absent the request falls
through to the lookup and yields 404 with an unchanged state — so a repeated
DELETE of the same absent id is the very same call on the very same state
and returns identically. -/
theorem c6_delete_removes_then_forwards (meta : WebDriverMeta) (o : Backend) (st : St)
    (req : Req) (u : Nat) (hu : u < 2 ^ 128) (hm : req.method = Method.DELETE)
    (hp : req.path = sessionPreChars ++ uuidToString u) :
    (∀ b r, lookupA st.registry u = some b →
      o.send Method.DELETE b.address (reqOutPath req false) req.body = some r →
      proxy meta o st req =
        Outcome.ok r.status r.headers r.body (deleteOp st u b)
          [Ev.removed u, Ev.aborted b.cleanup,
           Ev.forwarded Method.DELETE b.address (reqOutPath req false) false] ∧
      lookupA (deleteOp st u b).registry u = none) ∧
    (lookupA st.registry u = none →
      proxy meta o st req = Outcome.ok 404 [] [] st []) := by
  have hstat : ¬ isStatusRoute req := by
    intro hs
    rcases hs.1 with h | h <;> (rw [hm] at h; cases h)
  have hnew : ¬ isNewSessionRoute req := by
    intro hs
    have hh := hs.1
    rw [hm] at hh
    cases hh
  obtain ⟨hex, htrim⟩ := extractUuid_session u hu req hp
  have hred : proxy meta o st req = handleWithUuid o st req req.path u := by
    unfold proxy
    rw [if_neg hstat, if_neg hnew, hex, htrim]
  constructor
  · intro b r hb hsend
    constructor
    · rw [hred]
      unfold handleWithUuid
      rw [if_pos ⟨hm, hp⟩]
      simp only [hb, handleDeleteHit, proxyFwd, hm, toReqwestMethod, hsend]
    · exact lookupA_removeA_self st.registry u
  · intro hnone
    rw [hred]
    unfold handleWithUuid
    rw [if_pos ⟨hm, hp⟩, hnone]
    unfold handleLookup
    rw [hnone]

theorem c6_delete_removes_then_forwards_witness :
    lookupA st0.registry 0 = some browser0 ∧
    proxy meta0 o0 st0 reqDelete0 =
      Outcome.ok 200 [] backendOkResp.body (deleteOp st0 0 browser0)
        [Ev.removed 0, Ev.aborted 0,
         Ev.forwarded Method.DELETE addr0 (reqOutPath reqDelete0 false) false] ∧
    lookupA (deleteOp st0 0 browser0).registry 0 = none := by
  have h := (c6_delete_removes_then_forwards meta0 o0 st0 reqDelete0 0
    (by norm_num) rfl (by decide)).1 browser0 backendOkResp (by decide) rfl
  exact ⟨by decide, h.1, h.2⟩

theorem handleDeleteHit_not_silent (o : Backend) (st : St) (req : Req) (u : Nat)
    (b : Browser) (s : Nat) (hd : List (Chars × Chars)) (bd : Chars) (st2 : St)
    (h : handleDeleteHit o st req u b = Outcome.ok s hd bd st2 []) : False := by
  have hv : handleDeleteHit o st req u b =
      (match proxyFwd o b.address req false with
       | FwdRes.panicked =>
         Outcome.panicked (deleteOp st u b) [Ev.removed u, Ev.aborted b.cleanup]
       | FwdRes.transportErr =>
         Outcome.ok 502 [] [] (deleteOp st u b)
           [Ev.removed u, Ev.aborted b.cleanup,
            Ev.forwarded req.method b.address (reqOutPath req false) false]
       | FwdRes.got r =>
         Outcome.ok r.status r.headers r.body (deleteOp st u b)
           [Ev.removed u, Ev.aborted b.cleanup,
            Ev.forwarded req.method b.address (reqOutPath req false) false]) := rfl
  rw [hv] at h
  cases hf : proxyFwd o b.address req false <;> rw [hf] at h <;> simp at h

theorem handleLookup_silent (o : Backend) (st : St) (req : Req) (path : Chars) (u : Nat)
    (s : Nat) (hd : List (Chars × Chars)) (bd : Chars) (st2 : St)
    (h : handleLookup o st req path u = Outcome.ok s hd bd st2 []) :
    lookupA st.registry u = none ∧ s = 404 ∧ st2 = st := by
  cases hl : lookupA st.registry u with
  | none =>
    have hv : handleLookup o st req path u = Outcome.ok 404 [] [] st [] := by
      unfold handleLookup
      rw [hl]
    rw [hv] at h
    injection h with h1 h2 h3 h4 h5
    exact ⟨rfl, h1.symm, h4.symm⟩
  | some b =>
    exfalso
    have hv : handleLookup o st req path u =
        (match proxyFwd o b.address req
            (decide (req.method = Method.GET ∧
              path = driverPreChars ++ uuidToString u ++ statusPathChars)) with
         | FwdRes.panicked =>
           Outcome.panicked (rearmOp st u b) [Ev.aborted b.cleanup, Ev.spawnedTask st.nextTask u]
         | FwdRes.transportErr =>
           Outcome.ok 502 [] [] (rearmOp st u b)
             ([Ev.aborted b.cleanup, Ev.spawnedTask st.nextTask u] ++
              [Ev.forwarded req.method b.address
                (reqOutPath req
                  (decide (req.method = Method.GET ∧
                    path = driverPreChars ++ uuidToString u ++ statusPathChars)))
                (decide (req.method = Method.GET ∧
                  path = driverPreChars ++ uuidToString u ++ statusPathChars))])
         | FwdRes.got r =>
           Outcome.ok r.status r.headers r.body (rearmOp st u b)
             ([Ev.aborted b.cleanup, Ev.spawnedTask st.nextTask u] ++
              [Ev.forwarded req.method b.address
                (reqOutPath req
                  (decide (req.method = Method.GET ∧
                    path = driverPreChars ++ uuidToString u ++ statusPathChars)))
                (decide (req.method = Method.GET ∧
                  path = driverPreChars ++ uuidToString u ++ statusPathChars))])) := by
      unfold handleLookup
      rw [hl]
    rw [hv] at h
    cases hf : proxyFwd o b.address req
        (decide (req.method = Method.GET ∧
          path = driverPreChars ++ uuidToString u ++ statusPathChars)) <;>
      rw [hf] at h <;> simp at h

theorem handleWithUuid_silent (o : Backend) (st : St) (req : Req) (path : Chars) (u : Nat)
    (s : Nat) (hd : List (Chars × Chars)) (bd : Chars) (st2 : St)
    (h : handleWithUuid o st req path u = Outcome.ok s hd bd st2 []) :
    lookupA st.registry u = none ∧ s = 404 ∧ st2 = st := by
  unfold handleWithUuid at h
  by_cases hc : req.method = Method.DELETE ∧ path = sessionPreChars ++ uuidToString u
  · rw [if_pos hc] at h
    cases hl : lookupA st.registry u with
    | none =>
      rw [hl] at h
      exact ⟨rfl, (handleLookup_silent o st req path u s hd bd st2 h).2⟩
    | some b =>
      rw [hl] at h
      exact absurd h (fun hh => handleDeleteHit_not_silent o st req u b s hd bd st2 hh)
  · rw [if_neg hc] at h
    exact handleLookup_silent o st req path u s hd bd st2 h

/-- C10: for a request matching neither the global-status route nor the
NewSession route, (a) when the extracted session-id segment does not parse
as a UUID the proxy answers 400 Bad Request with the state untouched —
never 404; and (b) a locally produced 404 (a response with no forwarding or
other side effect, i.e. an empty event list) happens only when the segment
parsed as a UUID that is absent from the registry. -/
theorem c10_bad_id_400_vs_404 (meta : WebDriverMeta) (o : Backend) (st : St) (req : Req)
    (h1 : ¬ isStatusRoute req) (h2 : ¬ isNewSessionRoute req) :
    (extractUuid req = none → proxy meta o st req = Outcome.ok 400 [] [] st []) ∧
    (∀ hdrs body st2, proxy meta o st req = Outcome.ok 404 hdrs body st2 [] →
      ∃ u, extractUuid req = some u ∧ lookupA st.registry u = none) := by
  constructor
  · intro hnone
    unfold proxy
    rw [if_neg h1, if_neg h2, hnone]
  · intro hdrs body st2 h
    unfold proxy at h
    rw [if_neg h1, if_neg h2] at h
    cases hex : extractUuid req with
    | none =>
      rw [hex] at h
      have hh : Outcome.ok 400 [] [] st [] = Outcome.ok 404 hdrs body st2 [] := h
      injection hh with e1 e2 e3 e4 e5
      cases e1
    | some u =>
      rw [hex] at h
      have hh : handleWithUuid o st req (trimEndSlashes req.path) u =
          Outcome.ok 404 hdrs body st2 [] := h
      have := handleWithUuid_silent o st req (trimEndSlashes req.path) u 404 hdrs body st2 hh
      exact ⟨u, rfl, this.1⟩

theorem c10_bad_id_400_vs_404_witness :
    ¬ isStatusRoute reqPostStatus ∧ ¬ isNewSessionRoute reqPostStatus ∧
    extractUuid reqPostStatus = none ∧
    proxy meta0 o0 st0 reqPostStatus = Outcome.ok 400 [] [] st0 [] :=
  ⟨by decide, by decide, by decide,
    (c10_bad_id_400_vs_404 meta0 o0 st0 reqPostStatus (by decide) (by decide)).1 (by decide)⟩

/-- C8 (counterexample): two `POST /session` in a row against a backend
whose NewSession responses carry `sessionId: null` key both Browsers by the
all-zero id; the second insert replaces the entry but — dropping the old
`JoinHandle` detaches rather than aborts — leaves the first expiry task
live: the surviving entry's id has two armed timers and the
one-timer-per-entry invariant is broken. -/
theorem c8_duplicate_insert_two_timers :
    (twoPostsState.map fun s =>
      decide ((armedFor s.armed 0).length = 2 ∧ ¬ timersOk s ∧
        (lookupA s.registry 0).isSome = true)) = some true := by decide

/-- C8 (amended): every Browser has exactly one `cleanup` handle slot, and
each registry operation the dispatcher performs atomically (the rearm's
abort-spawn-swap runs under the Browser's own `cleanup` mutex, lines
325–334) preserves the exactly-one-armed-timer-per-entry invariant: the
rearm of a registered session (leaving precisely the freshly spawned timer
armed for it), the explicit delete, a NewSession insert whose session id is
not yet registered, and an expiry task firing.  (A NewSession insert under
an already-registered id is the exception, per the counterexample.) -/
theorem c8_registry_ops_preserve_timers (st : St) (hwf : RegWf st) :
    (∀ u b, lookupA st.registry u = some b →
      RegWf (rearmOp st u b) ∧ armedFor (rearmOp st u b).armed u = [(st.nextTask, u)]) ∧
    (∀ u b, lookupA st.registry u = some b → RegWf (deleteOp st u b)) ∧
    (∀ sid addr proc, lookupA st.registry sid = none → RegWf (insertOp st sid addr proc)) ∧
    (∀ t u, (t, u) ∈ st.armed → RegWf (expireOp st t u)) := by
  refine ⟨?_, fun u b hb => regWf_delete hwf hb,
    fun sid addr proc hn => regWf_insert hwf hn, fun t u hm => regWf_expire hwf hm⟩
  intro u b hb
  have hwf2 := regWf_rearm hwf hb
  refine ⟨hwf2, ?_⟩
  have hlook : lookupA (rearmOp st u b).registry u = some { b with cleanup := st.nextTask } := by
    show lookupA (updateCleanup st.registry u st.nextTask) u = _
    rw [lookupA_updateCleanup_self, hb]
    rfl
  exact hwf2.timers (u, { b with cleanup := st.nextTask }) (lookupA_mem hlook)

theorem c8_registry_ops_preserve_timers_witness :
    lookupA st0.registry 0 = some browser0 ∧
    armedFor (rearmOp st0 0 browser0).armed 0 = [(1, 0)] := by
  have hwf : RegWf st0 := ⟨by decide, by decide, by decide, by decide, by decide⟩
  exact ⟨by decide, ((c8_registry_ops_preserve_timers st0 hwf).1 0 browser0 (by decide)).2⟩
